import Mathlib

/-!
# Meal Planner backend (`server.js`): persistence and API layer

A shallow embedding of the three Express handlers (`GET /api/data`,
`POST /api/admin/verify`, `POST /api/data`) and of `initDataFile`, together with
the parts of the JavaScript runtime they call: `JSON.stringify(value, null, 2)`,
`JSON.parse`, the `express.json()` body reader, and `fs.access` / `fs.readFile` /
`fs.writeFile` on the single data file.

JavaScript strings are sequences of UTF-16 code units, JavaScript numbers are
IEEE-754 doubles given by their exact rational value.
-/

namespace MealPlanner

/-! ## JavaScript strings -/

/-- A JavaScript string: its UTF-16 code units. -/
abbrev JsString := List ℕ

/-- The UTF-16 code units of a string literal of the source. -/
def utf16 (s : String) : JsString :=
  s.toList.flatMap fun c =>
    if c.toNat < 0x10000 then [c.toNat]
    else [0xD800 + (c.toNat - 0x10000) / 0x400, 0xDC00 + (c.toNat - 0x10000) % 0x400]

def isHighSurrogate (c : ℕ) : Bool := decide (0xD800 ≤ c) && decide (c ≤ 0xDBFF)

def isLowSurrogate (c : ℕ) : Bool := decide (0xDC00 ≤ c) && decide (c ≤ 0xDFFF)

/-- What a string becomes when it is encoded as UTF-8 and decoded again: every
surrogate code unit that is not part of a pair is replaced by U+FFFD. -/
def toWellFormed : JsString → JsString
  | [] => []
  | [c] => if isHighSurrogate c || isLowSurrogate c then [0xFFFD] else [c]
  | c :: d :: rest =>
    if isHighSurrogate c && isLowSurrogate d then c :: d :: toWellFormed rest
    else if isHighSurrogate c || isLowSurrogate c then 0xFFFD :: toWellFormed (d :: rest)
    else c :: toWellFormed (d :: rest)

/-! ## JavaScript numbers -/

/-- A JavaScript number. `finite q` is the double whose exact value is `q`
(`finite 0` is `+0`). -/
inductive JsNumber where
  | finite (q : ℚ)
  | negZero
  | posInf
  | negInf
  | nan
deriving DecidableEq

def JsNumber.isFinite : JsNumber → Bool
  | .finite _ => true
  | .negZero => true
  | _ => false

/-- Round to the nearest natural number, ties to even. -/
def roundHalfEven (r : ℚ) : ℕ :=
  let f := ⌊r⌋₊
  if r - f < 1 / 2 then f
  else if 1 / 2 < r - f then f + 1
  else if f % 2 = 0 then f else f + 1

/-- The exponent of the unit in the last place of the double nearest to `q`:
53 significant bits, subnormal below `2 ^ (-1022)`. -/
def binaryExponent (q : ℚ) : ℤ := max (Int.log 2 q - 52) (-1074)

/-- The double nearest to a non-negative rational (round to nearest, ties to
even, overflow to `+∞`). -/
def roundToDouble (q : ℚ) : JsNumber :=
  let e := binaryExponent q
  let x : ℚ := roundHalfEven (q / 2 ^ e) * 2 ^ e
  if (2 : ℚ) ^ (1024 : ℕ) ≤ x then .posInf else .finite x

/-- The decimal digits of a natural number, most significant first. -/
def decimalDigits (s : ℕ) : List ℕ := (Nat.digits 10 s).reverse

/-- The number read from decimal digits, most significant first. -/
def ofDecimalDigits (ds : List ℕ) : ℕ := Nat.ofDigits 10 ds.reverse

/-- The value `s × 10 ^ (n - k)` where `k` is the number of digits of `s`. -/
def decimalValue (s : ℕ) (n : ℤ) : ℚ := s * 10 ^ (n - (decimalDigits s).length)

def digitChars (ds : List ℕ) : JsString := ds.map (· + 48)

/-- Steps 7 to 12 of `Number::toString`: the text for the digits `s` and the
decimal exponent `n`. -/
def formatDecimal (s : ℕ) (n : ℤ) : JsString :=
  let ds := decimalDigits s
  let k : ℤ := ds.length
  if -5 ≤ n ∧ n ≤ 21 then
    if k ≤ n then digitChars ds ++ List.replicate (n - k).toNat 48
    else if 0 < n then digitChars (ds.take n.toNat) ++ [46] ++ digitChars (ds.drop n.toNat)
    else [48, 46] ++ List.replicate (-n).toNat 48 ++ digitChars ds
  else
    let sign : ℕ := if n - 1 < 0 then 45 else 43
    let ex := digitChars (decimalDigits (n - 1).natAbs)
    match ds with
    | [] => []
    | [d] => digitChars [d] ++ [101, sign] ++ ex
    | d :: rest => digitChars [d] ++ [46] ++ digitChars rest ++ [101, sign] ++ ex

/-- The decimals with `k` digits next to `x` that round to `x`, the nearest
one when both do. -/
def digitCandidates (x : ℚ) (k : ℕ) : List (ℕ × ℤ) :=
  let n := Int.log 10 x + 1
  let lo := ⌊x * 10 ^ ((k : ℤ) - n)⌋₊
  let cands := [(lo, n), if lo + 1 = 10 ^ k then (10 ^ (k - 1), n + 1) else (lo + 1, n)]
  let ok := cands.filter fun c =>
    decide (0 < c.1) && decide (roundToDouble (decimalValue c.1 c.2) = .finite x)
  match ok with
  | [a, b] => if |decimalValue b.1 b.2 - x| < |decimalValue a.1 a.2 - x| then [b] else [a]
  | other => other

/-- Step 5 of `Number::toString`: digits `s` and exponent `n` with as few
digits as possible whose value rounds to `x`. -/
def shortestDigits (x : ℚ) : Option (ℕ × ℤ) :=
  (List.range 17).findSome? fun i => (digitCandidates x (i + 1)).head?

/-- The exact decimal expansion of a double. -/
def exactDigits (x : ℚ) : ℕ × ℤ :=
  let s := ⌊x * 10 ^ 1074⌋₊
  (s, ((decimalDigits s).length : ℤ) - 1074)

def positiveToString (x : ℚ) : JsString :=
  let d := (shortestDigits x).getD (exactDigits x)
  formatDecimal d.1 d.2

/-- The text `Number::toString(x)` gives in radix 10. -/
def numberToString : JsNumber → JsString
  | .nan => utf16 "NaN"
  | .negZero => utf16 "0"
  | .posInf => utf16 "Infinity"
  | .negInf => utf16 "-Infinity"
  | .finite q =>
    if q = 0 then utf16 "0"
    else if q < 0 then 45 :: positiveToString (-q)
    else positiveToString q

/-! ## JavaScript values -/

/-- The values `JSON.parse` can produce. An object is the list of its own
properties in property order. -/
inductive JsValue where
  | null
  | bool (b : Bool)
  | number (n : JsNumber)
  | string (s : JsString)
  | array (xs : List JsValue)
  | object (ps : List (JsString × JsValue))

/-- The number a property key stands for when it is an array index: a canonical
numeric string below `2 ^ 32 - 1`. -/
def arrayIndex? (k : JsString) : Option ℕ :=
  match k with
  | [] => none
  | [48] => some 0
  | c :: cs =>
    if 49 ≤ c ∧ c ≤ 57 ∧ cs.all (fun d => decide (48 ≤ d) && decide (d ≤ 57)) = true ∧
        ofDecimalDigits ((c :: cs).map (· - 48)) < 2 ^ 32 - 1 then
      some (ofDecimalDigits ((c :: cs).map (· - 48)))
    else none

/-- Where a new own property goes: array indices first in ascending order, then
the other keys in creation order. -/
def insertProp {α : Type} (k : JsString) (v : α) : List (JsString × α) → List (JsString × α)
  | [] => [(k, v)]
  | p :: ps =>
    match arrayIndex? k, arrayIndex? p.1 with
    | some i, some j => if i < j then (k, v) :: p :: ps else p :: insertProp k v ps
    | some _, none => (k, v) :: p :: ps
    | none, _ => p :: insertProp k v ps

/-- The operation `CreateDataProperty(O, k, v)`: an existing property keeps its place and gets
the new value. -/
def setProp {α : Type} (ps : List (JsString × α)) (k : JsString) (v : α) : List (JsString × α) :=
  if ps.any (fun p => decide (p.1 = k)) then ps.map (fun p => if p.1 = k then (k, v) else p)
  else insertProp k v ps

/-! ## `JSON.stringify(value, null, 2)` -/

def hexChar (d : ℕ) : ℕ := if d < 10 then 48 + d else 87 + d

/-- The text of `UnicodeEscape(c)`: backslash, `u` and four lowercase hexadecimal digits. -/
def unicodeEscape (c : ℕ) : JsString :=
  [92, 117, hexChar (c / 4096 % 16), hexChar (c / 256 % 16), hexChar (c / 16 % 16), hexChar (c % 16)]

/-- The text of one code unit that is not part of a surrogate pair. -/
def quoteUnit (c : ℕ) : JsString :=
  if c = 8 then [92, 98]
  else if c = 9 then [92, 116]
  else if c = 10 then [92, 110]
  else if c = 12 then [92, 102]
  else if c = 13 then [92, 114]
  else if c = 34 then [92, 34]
  else if c = 92 then [92, 92]
  else if c < 32 || isHighSurrogate c || isLowSurrogate c then unicodeEscape c
  else [c]

def quoteChars : JsString → JsString
  | [] => []
  | [c] => quoteUnit c
  | c :: d :: rest =>
    if isHighSurrogate c && isLowSurrogate d then c :: d :: quoteChars rest
    else quoteUnit c ++ quoteChars (d :: rest)

/-- The text of `QuoteJSONString(s)`: the quoted characters between double quotes. -/
def quoteJSONString (s : JsString) : JsString := 34 :: quoteChars s ++ [34]

/-- The gap of `JSON.stringify(value, null, 2)`: two spaces. -/
def gap : JsString := [32, 32]

mutual
/-- The text of `SerializeJSONProperty` at the given indentation, for the gap of two
spaces. -/
def serializeJSONProperty (indent : JsString) : JsValue → JsString
  | .null => utf16 "null"
  | .bool true => utf16 "true"
  | .bool false => utf16 "false"
  | .number n => if n.isFinite then numberToString n else utf16 "null"
  | .string s => quoteJSONString s
  | .array [] => [91, 93]
  | .array (x :: xs) =>
    [91, 10] ++ (indent ++ gap) ++ serializeElements (indent ++ gap) (x :: xs)
      ++ [10] ++ indent ++ [93]
  | .object [] => [123, 125]
  | .object (p :: ps) =>
    [123, 10] ++ (indent ++ gap) ++ serializeMembers (indent ++ gap) (p :: ps)
      ++ [10] ++ indent ++ [125]
/-- The elements of an array joined by a comma, a line feed and the indent. -/
def serializeElements (indent : JsString) : List JsValue → JsString
  | [] => []
  | [x] => serializeJSONProperty indent x
  | x :: y :: ys =>
    serializeJSONProperty indent x ++ [44, 10] ++ indent ++ serializeElements indent (y :: ys)
/-- The members of an object joined by a comma, a line feed and the indent. -/
def serializeMembers (indent : JsString) : List (JsString × JsValue) → JsString
  | [] => []
  | [p] => quoteJSONString p.1 ++ [58, 32] ++ serializeJSONProperty indent p.2
  | p :: q :: ps =>
    quoteJSONString p.1 ++ [58, 32] ++ serializeJSONProperty indent p.2 ++ [44, 10] ++ indent
      ++ serializeMembers indent (q :: ps)
end

/-- What a call of the runtime throws. -/
inductive JsError where
  | ENOENT
  | EACCES
  | SyntaxError
  | TypeError
  | RangeError

mutual
/-- How deep the arrays and objects of a value are nested. -/
def nestingDepth : JsValue → ℕ
  | .array xs => nestingDepthList xs + 1
  | .object ps => nestingDepthProps ps + 1
  | _ => 0
def nestingDepthList : List JsValue → ℕ
  | [] => 0
  | x :: xs => max (nestingDepth x) (nestingDepthList xs)
def nestingDepthProps : List (JsString × JsValue) → ℕ
  | [] => 0
  | p :: ps => max (nestingDepth p.2) (nestingDepthProps ps)
end

/-- The call stack of the runtime, as far as the server depends on it:
`JSON.stringify` recurses once for every level of nesting and throws a
`RangeError` when the stack is exhausted. The stack has room for a nesting of
five, that of the default document of the source. -/
structure Runtime where
  maxDepth : ℕ
  room : 5 ≤ maxDepth

/-- The call `JSON.stringify(value, null, 2)`; `undefined` gives `undefined`, a
value nested too deeply for the stack throws. -/
def JSON_stringify (rt : Runtime) : Option JsValue → Except JsError (Option JsString)
  | none => .ok none
  | some v =>
    if nestingDepth v ≤ rt.maxDepth then .ok (some (serializeJSONProperty [] v))
    else .error .RangeError

/-! ## `JSON.parse` -/

def isWhitespace (c : ℕ) : Bool := c = 32 || c = 9 || c = 10 || c = 13

def skipWhitespace : JsString → JsString
  | [] => []
  | c :: cs => if isWhitespace c then skipWhitespace cs else c :: cs

def isDigit (c : ℕ) : Bool := decide (48 ≤ c) && decide (c ≤ 57)

/-- The values of the leading decimal digits and the text after them. -/
def takeDigits : JsString → List ℕ × JsString
  | [] => ([], [])
  | c :: cs => if isDigit c then ((c - 48) :: (takeDigits cs).1, (takeDigits cs).2) else ([], c :: cs)

def hexValue (c : ℕ) : Option ℕ :=
  if 48 ≤ c ∧ c ≤ 57 then some (c - 48)
  else if 97 ≤ c ∧ c ≤ 102 then some (c - 87)
  else if 65 ≤ c ∧ c ≤ 70 then some (c - 55)
  else none

/-- The character a one-letter escape stands for. -/
def unescape (c : ℕ) : Option ℕ :=
  if c = 34 then some 34
  else if c = 92 then some 92
  else if c = 47 then some 47
  else if c = 98 then some 8
  else if c = 102 then some 12
  else if c = 110 then some 10
  else if c = 114 then some 13
  else if c = 116 then some 9
  else none

/-- The characters of a string literal after its opening quote, and the text
after its closing quote. -/
def parseStringBody : JsString → Option (JsString × JsString)
  | [] => none
  | c :: rest =>
    if c = 34 then some ([], rest)
    else if c = 92 then
      match rest with
      | [] => none
      | e :: rest1 =>
        if e = 117 then
          match rest1 with
          | h1 :: h2 :: h3 :: h4 :: rest2 =>
            match hexValue h1, hexValue h2, hexValue h3, hexValue h4, parseStringBody rest2 with
            | some a, some b, some c, some d, some (s, r) =>
              some ((a * 4096 + b * 256 + c * 16 + d) :: s, r)
            | _, _, _, _, _ => none
          | _ => none
        else
          match unescape e, parseStringBody rest1 with
          | some u, some (s, r) => some (u :: s, r)
          | _, _ => none
    else if c < 32 then none
    else
      match parseStringBody rest with
      | some (s, r) => some (c :: s, r)
      | none => none

/-- The integer part of a number literal: a single `0`, or digits that start
with `1` to `9`. -/
def lexInteger : JsString → Option (List ℕ × JsString)
  | [] => none
  | c :: cs =>
    if c = 48 then some ([0], cs)
    else if isDigit c then some (takeDigits (c :: cs))
    else none

/-- The optional fraction of a number literal. -/
def lexFraction : JsString → Option (List ℕ × JsString)
  | 46 :: cs => if (takeDigits cs).1 = [] then none else some (takeDigits cs)
  | cs => some ([], cs)

/-- The digits of an exponent after its optional sign. -/
def lexExponentDigits (negative : Bool) (cs : JsString) : Option (ℤ × JsString) :=
  if (takeDigits cs).1 = [] then none
  else some (if negative then -(ofDecimalDigits (takeDigits cs).1 : ℤ)
    else (ofDecimalDigits (takeDigits cs).1 : ℤ), (takeDigits cs).2)

/-- The optional exponent of a number literal. -/
def lexExponent : JsString → Option (ℤ × JsString)
  | [] => some (0, [])
  | c :: cs =>
    if c = 101 ∨ c = 69 then
      match cs with
      | 43 :: cs1 => lexExponentDigits false cs1
      | 45 :: cs1 => lexExponentDigits true cs1
      | _ => lexExponentDigits false cs
    else some (0, c :: cs)

/-- The mathematical value of an unsigned number literal and the text after it. -/
def lexNumber (cs : JsString) : Option (ℚ × JsString) :=
  match lexInteger cs with
  | none => none
  | some (int, r1) =>
    match lexFraction r1 with
    | none => none
    | some (frac, r2) =>
      match lexExponent r2 with
      | none => none
      | some (e, r3) =>
        some ((ofDecimalDigits (int ++ frac) : ℚ) * 10 ^ (e - (frac.length : ℤ)), r3)

/-- The double of a negative literal whose absolute value rounds to `x`. -/
def negateNumber : JsNumber → JsNumber
  | .finite q => if q = 0 then .negZero else .finite (-q)
  | .negZero => .finite 0
  | .posInf => .negInf
  | .negInf => .posInf
  | .nan => .nan

/-- A number literal: its double and the text after it. -/
def parseNumber : JsString → Option (JsNumber × JsString)
  | 45 :: cs =>
    match lexNumber cs with
    | some (q, r) => some (negateNumber (roundToDouble q), r)
    | none => none
  | cs =>
    match lexNumber cs with
    | some (q, r) => some (roundToDouble q, r)
    | none => none

/-- The text after the expected characters, when the text starts with them. -/
def expectChars : JsString → JsString → Option JsString
  | [], cs => some cs
  | _ :: _, [] => none
  | e :: es, c :: cs => if e = c then expectChars es cs else none

mutual
/-- One JSON value at the start of the text, which has no leading whitespace.
The fuel bounds the nesting and the number of elements; the length of the text
is always enough. -/
def parseValue : ℕ → JsString → Option (JsValue × JsString)
  | 0, _ => none
  | _ + 1, [] => none
  | fuel + 1, c :: cs =>
    if c = 110 then (expectChars [117, 108, 108] cs).map fun r => (JsValue.null, r)
    else if c = 116 then (expectChars [114, 117, 101] cs).map fun r => (JsValue.bool true, r)
    else if c = 102 then (expectChars [97, 108, 115, 101] cs).map fun r => (JsValue.bool false, r)
    else if c = 34 then (parseStringBody cs).map fun sr => (JsValue.string sr.1, sr.2)
    else if c = 91 then
      match skipWhitespace cs with
      | [] => none
      | d :: ds => if d = 93 then some (JsValue.array [], ds) else parseElements fuel (d :: ds) []
    else if c = 123 then
      match skipWhitespace cs with
      | [] => none
      | d :: ds => if d = 125 then some (JsValue.object [], ds) else parseMembers fuel (d :: ds) []
    else (parseNumber (c :: cs)).map fun nr => (JsValue.number nr.1, nr.2)
/-- The elements of an array after the ones in `acc`, up to the closing bracket. -/
def parseElements : ℕ → JsString → List JsValue → Option (JsValue × JsString)
  | 0, _, _ => none
  | fuel + 1, cs, acc =>
    match parseValue fuel cs with
    | none => none
    | some (v, r) =>
      match skipWhitespace r with
      | [] => none
      | d :: ds =>
        if d = 44 then parseElements fuel (skipWhitespace ds) (acc ++ [v])
        else if d = 93 then some (JsValue.array (acc ++ [v]), ds)
        else none
/-- The members of an object after the ones in `acc`, up to the closing brace. -/
def parseMembers : ℕ → JsString → List (JsString × JsValue) → Option (JsValue × JsString)
  | 0, _, _ => none
  | _ + 1, [], _ => none
  | fuel + 1, c :: cs, acc =>
    if c = 34 then
      match parseStringBody cs with
      | none => none
      | some (k, r) =>
        match skipWhitespace r with
        | [] => none
        | d :: ds =>
          if d = 58 then
            match parseValue fuel (skipWhitespace ds) with
            | none => none
            | some (v, r1) =>
              match skipWhitespace r1 with
              | [] => none
              | e :: es =>
                if e = 44 then parseMembers fuel (skipWhitespace es) (setProp acc k v)
                else if e = 125 then some (JsValue.object (setProp acc k v), es)
                else none
          else none
    else none
end

/-- The call `JSON.parse(text)`; `none` stands for the `SyntaxError` it throws. -/
def JSON_parse (text : JsString) : Option JsValue :=
  match parseValue (text.length + 1) (skipWhitespace text) with
  | none => none
  | some (v, r) => if skipWhitespace r = [] then some v else none

/-! ## The file system and the request body -/

/-- The state of `DATA_FILE`: its text when it exists, whether the `data`
directory exists and the process can search it, so that the path of the file
resolves at all, and whether the process can open the file for reading and for
writing (or create it). -/
structure FileSystem where
  file : Option JsString
  searchable : Bool
  readable : Bool
  writable : Bool

/-- The call `fs.access(DATA_FILE)`: succeeds when the path resolves and the file
exists; it rejects with `EACCES` on a directory that cannot be searched, also
when the file exists. -/
def fs_access (fs : FileSystem) : Except JsError Unit :=
  if fs.searchable then
    match fs.file with
    | some _ => .ok ()
    | none => .error .ENOENT
  else .error .EACCES

/-- The call `fs.readFile(DATA_FILE, 'utf8')`: the text of the file when the path
resolves, the file exists and it can be opened for reading. -/
def fs_readFile (fs : FileSystem) : Except JsError JsString :=
  if fs.searchable then
    match fs.file with
    | none => .error .ENOENT
    | some text => if fs.readable then .ok text else .error .EACCES
  else .error .EACCES

/-- The call `fs.writeFile(DATA_FILE, data)`: the data must be a string, it is stored as
UTF-8 and replaces the whole file. The failures are those of opening the file
(the argument is not a string, the path does not resolve, the file cannot be
opened for writing): they happen before the file is truncated and leave it as it
was. -/
def fs_writeFile (fs : FileSystem) (data : Option JsString) : Except JsError FileSystem :=
  match data with
  | none => .error .TypeError
  | some text =>
    if fs.searchable && fs.writable then .ok { fs with file := some (toWellFormed text) }
    else .error .EACCES

/-- The number of bytes of the UTF-8 encoding of a text. -/
def utf8Length : JsString → ℕ
  | [] => 0
  | [c] => if c < 0x80 then 1 else if c < 0x800 then 2 else 3
  | c :: d :: rest =>
    if isHighSurrogate c && isLowSurrogate d then 4 + utf8Length rest
    else (if c < 0x80 then 1 else if c < 0x800 then 2 else 3) + utf8Length (d :: rest)

/-- The limit of `express.json({ limit: '10mb' })` in bytes. -/
def bodyLimit : ℕ := 10 * 1024 * 1024

/-- The `express.json({ limit: '10mb' })` reader on a JSON request: `req.body` for
the text of the request body, or `none` when the request is refused before it
reaches a handler (over the limit, not an object or an array, or not JSON). An
empty body gives the empty object. -/
def express_json (raw : JsString) : Option JsValue :=
  if bodyLimit < utf8Length raw then none
  else if raw = [] then some (.object [])
  else
    match skipWhitespace raw with
    | [] => none
    | c :: _ => if c = 123 ∨ c = 91 then JSON_parse raw else none

/-! ## The server -/

/-- A response written with `res.status(status).json(body)`. -/
structure Response where
  status : ℕ
  body : JsValue

/-- The call `res.status(status).json(body)` on a value that is not a constant of
the source: the body is serialised with `JSON.stringify` before the response is
written, which throws on a value nested too deeply for the stack. -/
def res_json (rt : Runtime) (status : ℕ) (body : JsValue) : Except JsError Response :=
  if nestingDepth body ≤ rt.maxDepth then .ok ⟨status, body⟩ else .error .RangeError

/-- What a handler leaves behind: the responses it wrote and the file system. -/
structure Outcome where
  sent : List Response
  fs : FileSystem

/-- A `try { ... } catch { ... }` block. -/
def tryCatch {α : Type} (body : Except JsError α) (handler : JsError → Except JsError α) :
    Except JsError α :=
  match body with
  | .ok a => .ok a
  | .error e => handler e

/-- The constant `process.env.ADMIN_PIN || '1234'`: the environment variable when it is set
and not empty. -/
def ADMIN_PIN (env : Option JsString) : JsString :=
  match env with
  | none => utf16 "1234"
  | some [] => utf16 "1234"
  | some (c :: cs) => c :: cs

def ingredient (name quantity : String) : JsValue :=
  .object [(utf16 "name", .string (utf16 name)), (utf16 "quantity", .string (utf16 quantity))]

def meal (name steps : String) (ingredients : List JsValue) : JsValue :=
  .object [(utf16 "name", .string (utf16 name)), (utf16 "steps", .string (utf16 steps)),
    (utf16 "ingredients", .array ingredients)]

/-- The default meals database of the source. -/
def DEFAULT_MEALS : List JsValue := [
  meal "Chicken Fried Rice"
    "1. Heat 1 tablespoon of oil in a large pan on medium heat.<br>2. Add diced chicken and cook for 4–5 minutes until lightly browned.<br>3. Add minced garlic and cook for 30 seconds.<br>4. Add diced carrot and peas and cook for 2–3 minutes.<br>5. Push everything to one side of the pan and crack in the eggs.<br>6. Scramble the eggs until mostly set, then mix through the veg and chicken.<br>7. Add cooked rice and break up any clumps.<br>8. Add soy sauce and stir for 2–3 minutes until heated through.<br>9. Taste and season with salt and pepper."
    [ ingredient "Chicken breast" "300 g",
      ingredient "Rice (cooked)" "3 cups",
      ingredient "Carrot" "1 medium",
      ingredient "Peas" "1 cup",
      ingredient "Eggs" "2",
      ingredient "Garlic" "1 clove",
      ingredient "Soy sauce" "2 tablespoons",
      ingredient "Olive oil" "As needed",
      ingredient "Salt" "To taste",
      ingredient "Pepper" "To taste" ],
  meal "Honey Soy Chicken"
    "1. Heat 1 tablespoon of oil in a pan on medium heat.<br>2. Add chicken thighs and cook for 4–5 minutes on each side until browned.<br>3. Add minced garlic, honey and soy sauce to the pan.<br>4. Simmer for 2–3 minutes until the sauce thickens slightly.<br>5. Steam sliced carrot and green beans for 4–5 minutes until tender.<br>6. Serve chicken with steamed vegetables."
    [ ingredient "Chicken thighs" "400 g",
      ingredient "Carrot" "1 medium",
      ingredient "Green beans" "200 g",
      ingredient "Garlic" "1 clove",
      ingredient "Honey" "1 tablespoon",
      ingredient "Soy sauce" "2 tablespoons",
      ingredient "Olive oil" "As needed" ],
  meal "Pork Schnitzel with Mash"
    "1. Peel and chop potatoes into small chunks.<br>2. Boil potatoes for 12–15 minutes until soft.<br>3. Drain potatoes and mash with butter, milk, salt and pepper.<br>4. Heat oil in a pan on medium heat.<br>5. Cook schnitzels for 3–4 minutes per side until golden.<br>6. Microwave peas with a splash of water for 2 minutes.<br>7. Serve schnitzel with mash and peas."
    [ ingredient "Pork schnitzel" "400 g",
      ingredient "Potatoes" "3 medium",
      ingredient "Peas" "1 cup",
      ingredient "Butter" "1 tablespoon",
      ingredient "Milk" "1/4 cup",
      ingredient "Salt" "To taste",
      ingredient "Pepper" "To taste",
      ingredient "Olive oil" "As needed" ],
  meal "Beef Stroganoff"
    "1. Boil pasta for 10–12 minutes until tender.<br>2. Heat oil in a pan on medium heat.<br>3. Add beef strips and cook for 3–4 minutes until browned.<br>4. Add sliced onion and mushrooms and cook for 3 minutes.<br>5. Add minced garlic and cook for 30 seconds.<br>6. Add beef stock and simmer for 2 minutes.<br>7. Stir in sour cream and cook for 1–2 minutes. Do not boil.<br>8. Drain pasta and mix with the sauce.<br>9. Season with salt and pepper."
    [ ingredient "Beef strips" "400 g",
      ingredient "Mushrooms" "1 cup sliced",
      ingredient "Onion" "1 small",
      ingredient "Garlic" "1 clove",
      ingredient "Sour cream" "1/2 cup",
      ingredient "Beef stock" "1/2 cup",
      ingredient "Pasta" "200 g",
      ingredient "Olive oil" "As needed",
      ingredient "Salt" "To taste",
      ingredient "Pepper" "To taste" ],
  meal "Chicken Quesadillas"
    "1. Heat oil in a pan on medium heat.<br>2. Cook diced chicken for 4–5 minutes until lightly browned.<br>3. Add minced garlic and cook for 30 seconds.<br>4. Add grated zucchini and spinach and cook for 2 minutes until softened.<br>5. Place a wrap in a clean pan on low heat.<br>6. Add cheese, chicken mixture, then more cheese, and top with another wrap.<br>7. Cook for 2 minutes per side until golden and melted.<br>8. Slice and serve."
    [ ingredient "Chicken breast" "300 g",
      ingredient "Zucchini" "1 medium",
      ingredient "Baby spinach" "1 cup",
      ingredient "Cheese (grated)" "1 cup",
      ingredient "Wraps" "4",
      ingredient "Garlic" "1 clove",
      ingredient "Olive oil" "As needed",
      ingredient "Salt" "To taste",
      ingredient "Pepper" "To taste" ],
  meal "Salmon and Veg"
    "1. Heat 1 teaspoon of oil in a pan on medium heat.<br>2. Add salmon skin-side down and cook for 3–4 minutes.<br>3. Flip salmon and cook for 2 minutes.<br>4. Add butter and minced garlic to the pan and let it melt.<br>5. Add sliced zucchini and green beans around the salmon.<br>6. Cook vegetables for 3–4 minutes, stirring occasionally.<br>7. Spoon garlic butter over the salmon.<br>8. Season with salt and pepper and serve."
    [ ingredient "Salmon fillets" "2 fillets",
      ingredient "Zucchini" "1 medium",
      ingredient "Green beans" "200 g",
      ingredient "Garlic" "1 clove",
      ingredient "Butter" "1 tablespoon",
      ingredient "Olive oil" "As needed",
      ingredient "Salt" "To taste",
      ingredient "Pepper" "To taste",
      ingredient "Lemon wedge" "Optional" ],
  meal "Pork San Choy Bow"
    "1. Rinse rice and add to a pot with 2 cups of water and a pinch of salt.<br>2. Bring to a boil, then reduce heat to low, cover and cook for 12 minutes.<br>3. Heat oil in a pan on medium heat.<br>4. Add pork mince and cook for 4–5 minutes until browned.<br>5. Add minced garlic and cook for 30 seconds.<br>6. Add grated carrot and grated zucchini and cook for 2–3 minutes.<br>7. Add soy sauce and honey and stir for 1–2 minutes.<br>8. Fluff rice and serve pork mixture on top."
    [ ingredient "Pork mince" "500 g",
      ingredient "Carrot" "1 medium",
      ingredient "Zucchini" "1 medium",
      ingredient "Garlic" "1 clove",
      ingredient "Soy sauce" "2 tablespoons",
      ingredient "Honey" "1 tablespoon",
      ingredient "Rice (uncooked)" "1 cup",
      ingredient "Olive oil" "As needed",
      ingredient "Salt" "To taste",
      ingredient "Pepper" "To taste" ],
  meal "Chicken & Mushroom Risotto"
    "1. Heat 1 tablespoon of oil in a pan on medium heat.<br>2. Add diced chicken and cook for 4–5 minutes until lightly browned.<br>3. Add sliced mushrooms and cook for 2 minutes.<br>4. Add minced garlic and cook for 30 seconds.<br>5. Add rice and stir for 1 minute to coat.<br>6. Add 1 cup of stock and stir until mostly absorbed.<br>7. Add remaining stock 1 cup at a time, stirring occasionally.<br>8. Cook for 15–18 minutes until rice is tender.<br>9. Stir in parmesan and season with salt and pepper."
    [ ingredient "Chicken breast" "300 g",
      ingredient "Mushrooms" "1 cup sliced",
      ingredient "Arborio rice" "1 cup",
      ingredient "Chicken stock" "4 cups",
      ingredient "Garlic" "1 clove",
      ingredient "Parmesan" "1/2 cup",
      ingredient "Olive oil" "As needed",
      ingredient "Salt" "To taste",
      ingredient "Pepper" "To taste" ],
  meal "Beef Stir-Fry"
    "1. If serving with rice, cook 1 cup rice with 2 cups water for 12 minutes.<br>2. Heat oil in a large pan or wok on medium-high heat.<br>3. Add beef strips and cook for 3–4 minutes until browned.<br>4. Add sliced zucchini, sliced carrot and snow peas.<br>5. Stir-fry for 3–4 minutes until vegetables soften slightly.<br>6. Add minced garlic, soy sauce and honey.<br>7. Cook for 1–2 minutes until coated and glossy.<br>8. Serve immediately, with rice if desired."
    [ ingredient "Beef strips" "400 g",
      ingredient "Zucchini" "1 medium",
      ingredient "Carrot" "1 medium",
      ingredient "Snow peas" "1 cup",
      ingredient "Garlic" "1 clove",
      ingredient "Soy sauce" "2 tablespoons",
      ingredient "Honey" "1 tablespoon",
      ingredient "Rice (uncooked)" "1 cup",
      ingredient "Olive oil" "As needed" ],
  meal "Chicken Pesto Pasta"
    "1. Boil pasta for 10–12 minutes until tender.<br>2. Heat 1 tablespoon of oil in a pan on medium heat.<br>3. Add diced chicken and cook for 4–5 minutes until lightly browned.<br>4. Add minced garlic and cook for 30 seconds.<br>5. Add spinach and stir until wilted.<br>6. Drain pasta and add it to the pan.<br>7. Add pesto and stir for 1–2 minutes until coated.<br>8. Season with salt and pepper."
    [ ingredient "Chicken breast" "300 g",
      ingredient "Pasta" "200 g",
      ingredient "Baby spinach" "2 cups",
      ingredient "Pesto" "1/4 cup",
      ingredient "Garlic" "1 clove",
      ingredient "Olive oil" "As needed",
      ingredient "Salt" "To taste",
      ingredient "Pepper" "To taste" ],
  meal "Pork Sausage Pasta"
    "1. Boil pasta for 10–12 minutes until tender.<br>2. Heat 1 tablespoon of oil in a pan on medium heat.<br>3. Remove sausage meat from casings and add to the pan.<br>4. Cook for 4–5 minutes, breaking it up as it browns.<br>5. Add minced garlic and cook for 30 seconds.<br>6. Add grated zucchini and cook for 2 minutes.<br>7. Add passata and simmer for 5 minutes.<br>8. Drain pasta and mix into the sauce.<br>9. Season with salt, pepper and herbs if using."
    [ ingredient "Pork sausages" "4",
      ingredient "Pasta" "200 g",
      ingredient "Zucchini" "1 medium",
      ingredient "Passata" "1 cup",
      ingredient "Garlic" "1 clove",
      ingredient "Olive oil" "As needed",
      ingredient "Salt" "To taste",
      ingredient "Pepper" "To taste" ],
  meal "Lemon Garlic Chicken"
    "1. Rinse rice and add to a pot with 2 cups of water and a pinch of salt.<br>2. Bring to a boil, then reduce heat to low, cover and cook for 12 minutes.<br>3. Heat 1 tablespoon of oil in a pan on medium heat.<br>4. Add diced chicken and cook for 4–5 minutes until lightly browned.<br>5. Add minced garlic and cook for 30 seconds.<br>6. Add sliced zucchini and cook for 2–3 minutes.<br>7. Add butter and the juice of half a lemon.<br>8. Cook for 1–2 minutes until the sauce thickens slightly.<br>9. Fluff rice and serve chicken mixture on top."
    [ ingredient "Chicken breast" "300 g",
      ingredient "Zucchini" "1 medium",
      ingredient "Rice (uncooked)" "1 cup",
      ingredient "Garlic" "1 clove",
      ingredient "Lemon" "1/2",
      ingredient "Butter" "1 tablespoon",
      ingredient "Olive oil" "As needed",
      ingredient "Salt" "To taste",
      ingredient "Pepper" "To taste" ],
  meal "Chicken Teriyaki Stir-Fry"
    "1. Rinse rice and cook with 2 cups of water for 12 minutes.<br>2. Heat oil in a large pan on medium-high heat.<br>3. Add diced chicken and cook for 4–5 minutes until browned.<br>4. Add sliced carrot, sliced zucchini and green beans.<br>5. Stir-fry for 3–4 minutes until vegetables soften slightly.<br>6. Add teriyaki sauce and cook for 1–2 minutes.<br>7. Serve over rice."
    [ ingredient "Chicken breast" "300 g",
      ingredient "Carrot" "1 medium",
      ingredient "Zucchini" "1 medium",
      ingredient "Green beans" "200 g",
      ingredient "Teriyaki sauce" "1/4 cup",
      ingredient "Rice (uncooked)" "1 cup",
      ingredient "Olive oil" "As needed" ],
  meal "Beef & Potato Hash"
    "1. Peel and dice potatoes into small cubes.<br>2. Heat oil in a pan on medium heat.<br>3. Add potatoes and cook for 8–10 minutes until softened and lightly browned.<br>4. Add beef mince and cook for 4–5 minutes until browned.<br>5. Add minced garlic and cook for 30 seconds.<br>6. Add spinach and stir until wilted.<br>7. Season with salt, pepper and herbs if using."
    [ ingredient "Beef mince" "400 g",
      ingredient "Potatoes" "3 medium",
      ingredient "Baby spinach" "2 cups",
      ingredient "Garlic" "1 clove",
      ingredient "Olive oil" "As needed",
      ingredient "Salt" "To taste",
      ingredient "Pepper" "To taste" ],
  meal "Mushroom Omelette"
    "1. Heat butter or oil in a pan on medium heat.<br>2. Add sliced mushrooms and cook for 2–3 minutes until softened.<br>3. Add spinach and cook for 1 minute until wilted.<br>4. In a bowl, whisk eggs with salt and pepper.<br>5. Pour eggs into the pan and tilt to spread evenly.<br>6. Cook on low heat for 3–4 minutes until the edges begin to set.<br>7. Sprinkle cheese over the top.<br>8. Fold the omelette gently and cook for 1 more minute.<br>9. Serve immediately."
    [ ingredient "Eggs" "3",
      ingredient "Mushrooms" "1/2 cup sliced",
      ingredient "Baby spinach" "1 cup",
      ingredient "Cheese (grated)" "1/4 cup",
      ingredient "Butter" "1 tablespoon",
      ingredient "Salt" "To taste",
      ingredient "Pepper" "To taste" ],
  meal "Creamy Chicken Pasta"
    "1. Fill a large pot with water, add 1 teaspoon of salt, and bring it to a boil.<br>2. Add the pasta and cook for 10–12 minutes until soft enough to bite through, stirring occasionally.<br>3. Heat 1 tablespoon of olive oil in a pan on medium heat.<br>4. Add the sliced chicken and cook for 4–5 minutes until the outside is white and lightly browned.<br>5. Add the minced garlic and sliced mushrooms and cook for 2 minutes.<br>6. Pour in the cream and let it gently bubble for 2–3 minutes.<br>7. Add the grated parmesan and stir until the sauce thickens. If it becomes too thick, add 2 tablespoons of water.<br>8. Add the spinach and stir until wilted.<br>9. Drain the pasta and add it to the pan, mixing well.<br>10. Taste and season with salt and pepper before serving."
    [ ingredient "Chicken breast" "300 g",
      ingredient "Pasta" "200 g",
      ingredient "Mushrooms" "1 cup sliced",
      ingredient "Heavy cream" "1 cup",
      ingredient "Parmesan" "1/2 cup",
      ingredient "Baby spinach" "2 cups",
      ingredient "Garlic" "1 clove",
      ingredient "Olive oil" "As needed",
      ingredient "Salt" "To taste",
      ingredient "Pepper" "To taste" ],
  meal "Beef and Veg Bolognese"
    "1. Fill a pot with water, add 1 teaspoon of salt, and bring to a boil.<br>2. Add pasta and cook for 10–12 minutes, stirring occasionally.<br>3. Heat 1 tablespoon of olive oil in a pan on medium heat.<br>4. Add the beef mince and cook for 4–5 minutes until no pink remains.<br>5. Add grated zucchini and grated carrot and cook for 3 minutes.<br>6. Add minced garlic and cook for 30 seconds.<br>7. Add passata, tomato paste, herbs, salt and pepper, and stir well.<br>8. Simmer for 10 minutes. If the sauce becomes too thick, add 2 tablespoons of water.<br>9. Drain pasta and mix it into the sauce.<br>10. Taste and adjust seasoning before serving."
    [ ingredient "Beef mince" "400 g",
      ingredient "Pasta" "200 g",
      ingredient "Zucchini" "1 medium",
      ingredient "Carrot" "1 medium",
      ingredient "Passata" "1 cup",
      ingredient "Tomato paste" "2 tablespoons",
      ingredient "Garlic" "1 clove",
      ingredient "Olive oil" "As needed",
      ingredient "Salt" "To taste",
      ingredient "Pepper" "To taste" ],
  meal "Salmon Rice Bowls"
    "1. Rinse 1 cup of rice under cold water until the water runs mostly clear.<br>2. Add rice and 2 cups of water to a pot with a pinch of salt.<br>3. Bring to a boil on high heat, then reduce to low and cover with a lid.<br>4. Cook for 12 minutes without lifting the lid.<br>5. Turn off heat and let the rice rest for 5 minutes, then fluff with a fork.<br>6. Steam green beans and carrot ribbons for 3–5 minutes until tender.<br>7. Heat a pan with a small amount of oil on medium heat.<br>8. Place salmon skin‑side down and cook for 3–4 minutes.<br>9. Flip salmon and cook for 2 minutes.<br>10. Add teriyaki sauce to the pan and let it bubble for 30 seconds to glaze.<br>11. Serve salmon and vegetables over the rice."
    [ ingredient "Salmon fillets" "2 fillets",
      ingredient "Rice (uncooked)" "1 cup",
      ingredient "Green beans" "200 g",
      ingredient "Carrot" "1 medium",
      ingredient "Teriyaki sauce" "2 tablespoons",
      ingredient "Olive oil" "As needed",
      ingredient "Salt" "To taste" ],
  meal "Pork and Veg Stir-Fry"
    "1. Heat 1 tablespoon of olive oil in a large pan or wok on medium‑high heat.<br>2. Add pork strips and cook for 2–3 minutes until lightly browned.<br>3. Add sliced zucchini, sliced carrot and snow peas.<br>4. Stir‑fry for 3–4 minutes until vegetables soften slightly.<br>5. Add minced garlic, soy sauce and honey (or teriyaki).<br>6. Stir for 1–2 minutes until everything is coated.<br>7. If the sauce becomes too thick, add 1 tablespoon of water.<br>8. Serve immediately, with rice or wraps if desired."
    [ ingredient "Pork strips" "400 g",
      ingredient "Zucchini" "1 medium",
      ingredient "Carrot" "1 medium",
      ingredient "Snow peas" "1 cup",
      ingredient "Garlic" "1 clove",
      ingredient "Soy sauce" "2 tablespoons",
      ingredient "Honey" "1 tablespoon",
      ingredient "Olive oil" "As needed" ],
  meal "Bacon and Zucchini Frittata"
    "1. Heat a pan on medium heat and cook chopped bacon for 3–4 minutes until lightly crisp.<br>2. Add sliced mushrooms and cook for 2 minutes.<br>3. Add zucchini and cook for another 2 minutes.<br>4. Add spinach and stir until wilted.<br>5. Whisk eggs with salt and pepper in a bowl.<br>6. Pour eggs into the pan and tilt to spread evenly.<br>7. Cook on low heat for 3–4 minutes until the edges begin to set.<br>8. Turn on your oven's electric grill now and let it heat for 2 minutes.<br>9. Place the pan under the grill for 2–4 minutes until the top is firm and lightly golden.<br>10. Remove from heat, rest for 2 minutes, slice and serve."
    [ ingredient "Bacon" "4 slices",
      ingredient "Eggs" "6",
      ingredient "Zucchini" "1 medium",
      ingredient "Mushrooms" "1/2 cup sliced",
      ingredient "Baby spinach" "1 cup",
      ingredient "Salt" "To taste",
      ingredient "Pepper" "To taste" ] ]

/-- The document `initDataFile` writes. -/
def defaultData : JsValue :=
  .object [(utf16 "meals", .array DEFAULT_MEALS), (utf16 "weekPlan", .object [])]

/-- The function `initDataFile()`: writes the default document when `fs.access`
rejects, whatever the reason. An error of the write is not caught. -/
def initDataFile (rt : Runtime) (fs : FileSystem) : Except JsError FileSystem :=
  tryCatch (do
      fs_access fs
      pure fs)
    (fun _ => do
      let text ← JSON_stringify rt (some defaultData)
      fs_writeFile fs text)

/-- The handler of `GET /api/data`. The call `res.json(JSON.parse(data))` is inside
the `try`: an error of the serialisation is answered by the `catch` block too. -/
def getData (rt : Runtime) (fs : FileSystem) : Except JsError Outcome :=
  tryCatch (do
      let data ← fs_readFile fs
      let value ← (match JSON_parse data with
        | some v => .ok v
        | none => .error .SyntaxError : Except JsError JsValue)
      let r ← res_json rt 200 value
      pure ⟨[r], fs⟩)
    (fun _ => pure ⟨[⟨500, .object [(utf16 "error", .string (utf16 "Failed to read data"))]⟩], fs⟩)

/-- The destructuring `const { pin } = req.body`: the `pin` property, `none` for
`undefined`; it throws on `undefined` and `null`. -/
def destructurePin : Option JsValue → Except JsError (Option JsValue)
  | none => .error .TypeError
  | some .null => .error .TypeError
  | some (.object ps) => .ok (ps.lookup (utf16 "pin"))
  | some _ => .ok none

/-- The comparison `pin === ADMIN_PIN` against a string: true for a string with
the same code units only. -/
def strictEquals (pin : Option JsValue) (secret : JsString) : Bool :=
  match pin with
  | some (.string s) => decide (s = secret)
  | _ => false

/-- The handler of `POST /api/admin/verify`. -/
def verifyPin (env : Option JsString) (body : Option JsValue) (fs : FileSystem) :
    Except JsError Outcome :=
  tryCatch (do
      let pin ← destructurePin body
      if strictEquals pin (ADMIN_PIN env) then
        pure ⟨[⟨200, .object [(utf16 "success", .bool true)]⟩], fs⟩
      else
        pure ⟨[⟨401, .object [(utf16 "success", .bool false),
          (utf16 "error", .string (utf16 "Invalid PIN"))]⟩], fs⟩)
    (fun _ => pure ⟨[⟨500, .object [(utf16 "error", .string (utf16 "Failed to verify PIN"))]⟩], fs⟩)

/-- The handler of `POST /api/data`. -/
def saveData (rt : Runtime) (body : Option JsValue) (fs : FileSystem) : Except JsError Outcome :=
  tryCatch (do
      let text ← JSON_stringify rt body
      let fs1 ← fs_writeFile fs text
      pure ⟨[⟨200, .object [(utf16 "success", .bool true)]⟩], fs1⟩)
    (fun _ => pure ⟨[⟨500, .object [(utf16 "error", .string (utf16 "Failed to save data"))]⟩], fs⟩)

/-! ## Values that come out of `JSON.parse` -/

/-- A positive rational that is the exact value of a double: rounding keeps it,
and it has at most 1074 decimal places. -/
def IsDoubleValue (x : ℚ) : Prop :=
  0 < x ∧ roundToDouble x = .finite x ∧ ∃ s : ℕ, x * 10 ^ 1074 = s

/-- A number that a number literal can denote. -/
def JsNumber.IsDouble : JsNumber → Prop
  | .finite q => q = 0 ∨ IsDoubleValue q ∨ IsDoubleValue (-q)
  | .nan => False
  | _ => True

/-- The property order of two keys of one object: they differ, an array index
comes before a key that is none, and array indices ascend. -/
def keyBefore (k1 k2 : JsString) : Prop :=
  k1 ≠ k2 ∧
    match arrayIndex? k1, arrayIndex? k2 with
    | some i, some j => i ≤ j
    | none, some _ => False
    | _, _ => True

mutual
/-- A value as the runtime builds it: its numbers are doubles and the
properties of its objects are in property order, without a repeated key. -/
def JsValue.Valid : JsValue → Prop
  | .number n => n.IsDouble
  | .array xs => validList xs
  | .object ps => (ps.map Prod.fst).Pairwise keyBefore ∧ validProps ps
  | _ => True
def validList : List JsValue → Prop
  | [] => True
  | x :: xs => x.Valid ∧ validList xs
def validProps : List (JsString × JsValue) → Prop
  | [] => True
  | p :: ps => p.2.Valid ∧ validProps ps
end

/-- What `JSON.stringify` writes for a number reads back as: a number that is
not finite becomes `null`, negative zero becomes zero. -/
def JsNumber.readBack : JsNumber → JsValue
  | .finite q => .number (.finite q)
  | .negZero => .number (.finite 0)
  | _ => .null

mutual
/-- The value that the text `JSON.stringify` writes for a value denotes. -/
def JsValue.readBack : JsValue → JsValue
  | .number n => n.readBack
  | .array xs => .array (readBackList xs)
  | .object ps => .object (readBackProps ps)
  | v => v
def readBackList : List JsValue → List JsValue
  | [] => []
  | x :: xs => x.readBack :: readBackList xs
def readBackProps : List (JsString × JsValue) → List (JsString × JsValue)
  | [] => []
  | p :: ps => (p.1, p.2.readBack) :: readBackProps ps
end

mutual
/-- Every number in the value is finite and is not negative zero. -/
def JsValue.NumbersExact : JsValue → Prop
  | .number n => ∃ q, n = .finite q
  | .array xs => numbersExactList xs
  | .object ps => numbersExactProps ps
  | _ => True
def numbersExactList : List JsValue → Prop
  | [] => True
  | x :: xs => x.NumbersExact ∧ numbersExactList xs
def numbersExactProps : List (JsString × JsValue) → Prop
  | [] => True
  | p :: ps => p.2.NumbersExact ∧ numbersExactProps ps
end

mutual
/-- A bound on the fuel `parseValue` needs for the text of a value. -/
def nodeCount : JsValue → ℕ
  | .array xs => 2 + nodeCountList xs
  | .object ps => 2 + nodeCountProps ps
  | _ => 1
def nodeCountList : List JsValue → ℕ
  | [] => 0
  | x :: xs => nodeCount x + nodeCountList xs
def nodeCountProps : List (JsString × JsValue) → ℕ
  | [] => 0
  | p :: ps => nodeCount p.2 + nodeCountProps ps
end

/-- Text that is empty or starts with a comma or a line feed: what follows a
value in the output of `JSON.stringify`. -/
def Delimited (rest : JsString) : Prop :=
  rest = [] ∨ ∃ t, rest = 44 :: t ∨ rest = 10 :: t

/-- An indentation: spaces only. -/
def Spaces (indent : JsString) : Prop := ∀ c ∈ indent, c = 32

/-- The characters a JSON value can start with. -/
def StartsValue (c : ℕ) : Prop :=
  c = 110 ∨ c = 116 ∨ c = 102 ∨ c = 34 ∨ c = 91 ∨ c = 123 ∨ c = 45 ∨ (48 ≤ c ∧ c ≤ 57)

/-- Text that does not continue a run of digits. -/
def NoDigitAhead (rest : JsString) : Prop := ∀ c t, rest = c :: t → isDigit c = false

/-! ## Runs of the server -/

/-- A request that reaches one of the three handlers, with its `req.body`. -/
inductive Request where
  | getData
  | verify (body : Option JsValue)
  | save (body : Option JsValue)

/-- The handler a request is routed to. -/
def handle (rt : Runtime) (env : Option JsString) (fs : FileSystem) :
    Request → Except JsError Outcome
  | .getData => getData rt fs
  | .verify body => verifyPin env body fs
  | .save body => saveData rt body fs

/-- The file system after a sequence of requests. -/
def run (rt : Runtime) (env : Option JsString) : FileSystem → List Request → FileSystem
  | fs, [] => fs
  | fs, r :: rs =>
    match handle rt env fs r with
    | .ok o => run rt env o.fs rs
    | .error _ => run rt env fs rs

/-- The body of the request is `undefined` or was read by `express.json()`. -/
def Request.FromExpress : Request → Prop
  | .getData => True
  | .verify none => True
  | .verify (some d) => ∃ raw, express_json raw = some d
  | .save none => True
  | .save (some d) => ∃ raw, express_json raw = some d

/-- The file system after a call of `initDataFile`, whether it returned or
threw. -/
def afterInit (rt : Runtime) (fs : FileSystem) : FileSystem :=
  match initDataFile rt fs with
  | .ok fs1 => fs1
  | .error _ => fs

/-- The names of the own properties of a response body. -/
def JsValue.keys : JsValue → List JsString
  | .object ps => ps.map Prod.fst
  | _ => []

/-! ## The shape of a meal record -/

/-- The own property of an object with the given name, `none` for `undefined`. -/
def JsValue.get (v : JsValue) (k : String) : Option JsValue :=
  match v with
  | .object ps => ps.lookup (utf16 k)
  | _ => none

/-- The string a property holds, when it holds one. -/
def stringOf : Option JsValue → Option JsString
  | some (.string s) => some s
  | _ => none

/-- The property is a string with at least one code unit. -/
def isNonEmptyString : Option JsValue → Bool
  | some (.string (_ :: _)) => true
  | _ => false

/-- An ingredient with a string `name` and a string `quantity`. -/
def wellFormedIngredient (v : JsValue) : Bool :=
  (stringOf (v.get "name")).isSome && (stringOf (v.get "quantity")).isSome

/-- A meal with a non-empty `name`, a non-empty `steps` string and a non-empty
`ingredients` array of well formed ingredients. -/
def wellFormedMeal (v : JsValue) : Bool :=
  isNonEmptyString (v.get "name") && isNonEmptyString (v.get "steps") &&
    match v.get "ingredients" with
    | some (.array (x :: xs)) => (x :: xs).all wellFormedIngredient
    | _ => false

/-- The `name` of every default meal, in order. -/
def mealNames : List (Option JsString) := DEFAULT_MEALS.map fun m => stringOf (m.get "name")

/-! ## Examples -/

/-- A runtime whose stack is exhausted by `JSON.stringify` at 5000 levels of
nesting. -/
def exampleRuntime : Runtime := ⟨4999, by decide⟩

/-- The array that holds `n` arrays nested in one another, the innermost one
empty: `[]` for 0, `[[]]` for 1. -/
def nestedArrays : ℕ → JsValue
  | 0 => .array []
  | n + 1 => .array [nestedArrays n]

/-! ## String literals -/

theorem hexValue_hexChar (d : ℕ) (h : d < 16) : hexValue (hexChar d) = some d := by
  interval_cases d <;> rfl

theorem parse_unicodeEscape (c : ℕ) (hc : c < 65536) (t : JsString) :
    parseStringBody (unicodeEscape c ++ t) = (parseStringBody t).map fun sr => (c :: sr.1, sr.2) := by
  have h1 := hexValue_hexChar (c / 4096 % 16) (Nat.mod_lt _ (by norm_num))
  have h2 := hexValue_hexChar (c / 256 % 16) (Nat.mod_lt _ (by norm_num))
  have h3 := hexValue_hexChar (c / 16 % 16) (Nat.mod_lt _ (by norm_num))
  have h4 := hexValue_hexChar (c % 16) (Nat.mod_lt _ (by norm_num))
  have hsum : c / 4096 % 16 * 4096 + c / 256 % 16 * 256 + c / 16 % 16 * 16 + c % 16 = c := by omega
  simp only [unicodeEscape, List.cons_append, List.nil_append]
  rw [parseStringBody.eq_def]
  simp only [show ¬ (92 : ℕ) = 34 by decide, if_false, if_true, h1, h2, h3, h4]
  cases parseStringBody t <;> simp [hsum]

theorem parse_raw (c : ℕ) (h1 : c ≠ 34) (h2 : c ≠ 92) (h3 : ¬ c < 32) (t : JsString) :
    parseStringBody (c :: t) = (parseStringBody t).map fun sr => (c :: sr.1, sr.2) := by
  rw [parseStringBody.eq_def]
  simp only [h1, h2, h3, if_false]
  cases parseStringBody t <;> simp

theorem parse_short (e u : ℕ) (he : e ≠ 117) (hu : unescape e = some u) (t : JsString) :
    parseStringBody (92 :: e :: t) = (parseStringBody t).map fun sr => (u :: sr.1, sr.2) := by
  rw [parseStringBody.eq_def]
  simp only [show ¬ (92 : ℕ) = 34 by decide, he, hu, if_false, if_true]
  cases parseStringBody t <;> simp

theorem parse_quoteUnit (c : ℕ) (t : JsString) :
    parseStringBody (quoteUnit c ++ t) = (parseStringBody t).map fun sr => (c :: sr.1, sr.2) := by
  unfold quoteUnit
  split_ifs with h8 h9 h10 h12 h13 h34 h92 hesc
  · subst h8; exact parse_short 98 8 (by decide) rfl t
  · subst h9; exact parse_short 116 9 (by decide) rfl t
  · subst h10; exact parse_short 110 10 (by decide) rfl t
  · subst h12; exact parse_short 102 12 (by decide) rfl t
  · subst h13; exact parse_short 114 13 (by decide) rfl t
  · subst h34; exact parse_short 34 34 (by decide) rfl t
  · subst h92; exact parse_short 92 92 (by decide) rfl t
  · apply parse_unicodeEscape
    simp only [isHighSurrogate, isLowSurrogate, Bool.or_eq_true, Bool.and_eq_true,
      decide_eq_true_eq] at hesc
    omega
  · simp only [Bool.or_eq_true, decide_eq_true_eq, not_or] at hesc
    exact parse_raw c h34 h92 hesc.1.1 t

theorem parse_quoteChars (s t : JsString) :
    parseStringBody (quoteChars s ++ 34 :: t) = some (s, t) := by
  induction s using quoteChars.induct with
  | case1 => rw [quoteChars, parseStringBody.eq_def]; simp
  | case2 c =>
    rw [quoteChars, parse_quoteUnit, parseStringBody.eq_def]
    simp
  | case3 c d rest h ih =>
    rw [quoteChars, if_pos h]
    simp only [isHighSurrogate, isLowSurrogate, Bool.and_eq_true, decide_eq_true_eq] at h
    rw [List.cons_append, List.cons_append, parse_raw c (by omega) (by omega) (by omega),
      parse_raw d (by omega) (by omega) (by omega), ih]
    rfl
  | case4 c d rest h ih =>
    rw [quoteChars, if_neg h, List.append_assoc, parse_quoteUnit, ih]
    rfl

theorem parse_quoteJSONString (s t : JsString) :
    parseStringBody (quoteChars s ++ [34] ++ t) = some (s, t) := by
  simpa using parse_quoteChars s t

/-! ## Induction over values -/

/-- Induction over a value, the elements of an array and the properties of an
object at once. -/
theorem JsValue.induct3 {P : JsValue → Prop} {PL : List JsValue → Prop}
    {PP : List (JsString × JsValue) → Prop}
    (hnull : P .null) (hbool : ∀ b, P (.bool b)) (hnum : ∀ n, P (.number n))
    (hstr : ∀ s, P (.string s))
    (harr : ∀ xs, PL xs → P (.array xs)) (hobj : ∀ ps, PP ps → P (.object ps))
    (hnil : PL []) (hcons : ∀ x xs, P x → PL xs → PL (x :: xs))
    (hpnil : PP []) (hpcons : ∀ k v ps, P v → PP ps → PP ((k, v) :: ps)) :
    (∀ v, P v) ∧ (∀ xs, PL xs) ∧ (∀ ps, PP ps) := by
  have key : ∀ v, P v := by
    intro v
    exact @JsValue.rec P PL PP (fun p => P p.2) hnull hbool hnum hstr (fun xs h => harr xs h)
      (fun ps h => hobj ps h) hnil (fun x xs h1 h2 => hcons x xs h1 h2) hpnil
      (fun p ps h1 h2 => hpcons p.1 p.2 ps h1 h2) (fun k v h => h) v
  refine ⟨key, ?_, ?_⟩
  · intro xs
    induction xs with
    | nil => exact hnil
    | cons x xs ih => exact hcons x xs (key x) ih
  · intro ps
    induction ps with
    | nil => exact hpnil
    | cons p ps ih => exact hpcons p.1 p.2 ps (key p.2) ih

/-! ## Decimal digits -/

theorem takeDigits_digitChars (ds : List ℕ) (rest : JsString) (hds : ∀ d ∈ ds, d < 10)
    (hrest : NoDigitAhead rest) : takeDigits (digitChars ds ++ rest) = (ds, rest) := by
  induction ds with
  | nil =>
    cases rest with
    | nil => rfl
    | cons c t => simp [digitChars, takeDigits, hrest c t rfl]
  | cons d ds ih =>
    have hd : d < 10 := hds d (List.mem_cons_self _ _)
    have ih1 := ih fun x hx => hds x (List.mem_cons_of_mem _ hx)
    simp only [digitChars, List.map_cons, List.cons_append] at ih1 ⊢
    rw [takeDigits]
    have : isDigit (d + 48) = true := by simp [isDigit]; omega
    simp [this, ih1]

theorem digitChars_append (a b : List ℕ) : digitChars (a ++ b) = digitChars a ++ digitChars b := by
  simp [digitChars]

theorem digitChars_replicate (n : ℕ) : digitChars (List.replicate n 0) = List.replicate n 48 := by
  simp [digitChars]

theorem decimalDigits_lt (s : ℕ) : ∀ d ∈ decimalDigits s, d < 10 := by
  intro d hd
  rw [decimalDigits, List.mem_reverse] at hd
  exact Nat.digits_lt_base (by norm_num) hd

theorem ofDecimalDigits_decimalDigits (s : ℕ) : ofDecimalDigits (decimalDigits s) = s := by
  simp [ofDecimalDigits, decimalDigits, Nat.ofDigits_digits]

theorem decimalDigits_cons (s : ℕ) (hs : 0 < s) :
    ∃ d ds, decimalDigits s = d :: ds ∧ 0 < d ∧ d < 10 := by
  have hne : Nat.digits 10 s ≠ [] := Nat.digits_ne_nil_iff_ne_zero.2 (by omega)
  have hlast := Nat.getLast_digit_ne_zero 10 (m := s) (by omega)
  rcases h : decimalDigits s with _ | ⟨d, ds⟩
  · rw [decimalDigits, List.reverse_eq_nil_iff] at h
    exact absurd h hne
  · refine ⟨d, ds, rfl, ?_, decimalDigits_lt s d (by rw [h]; exact List.mem_cons_self _ _)⟩
    have hd : (Nat.digits 10 s).getLast hne = d := by
      have : Nat.digits 10 s = (d :: ds).reverse := by
        rw [← h, decimalDigits, List.reverse_reverse]
      simp [this]
    rw [hd] at hlast
    omega

theorem ofDecimalDigits_append (a b : List ℕ) :
    ofDecimalDigits (a ++ b) = ofDecimalDigits a * 10 ^ b.length + ofDecimalDigits b := by
  simp [ofDecimalDigits, Nat.ofDigits_append]
  ring

theorem ofDecimalDigits_replicate (n : ℕ) : ofDecimalDigits (List.replicate n 0) = 0 := by
  induction n with
  | zero => rfl
  | succ n ih =>
    rw [List.replicate_succ, show (0 :: List.replicate n 0) = [0] ++ List.replicate n 0 from rfl,
      ofDecimalDigits_append, ih]
    simp [ofDecimalDigits]

theorem Delimited.noDigit {rest : JsString} (h : Delimited rest) : NoDigitAhead rest := by
  intro c t hct
  rcases h with h | ⟨u, h | h⟩ <;> rw [h] at hct
  · cases hct
  · cases hct; rfl
  · cases hct; rfl

theorem noDigit_cons (c : ℕ) (t : JsString) (h : isDigit c = false) : NoDigitAhead (c :: t) := by
  intro d u hd
  cases hd
  exact h

theorem lexFraction_none (rest : JsString) (h : Delimited rest) :
    lexFraction rest = some ([], rest) := by
  rcases h with h | ⟨u, h | h⟩ <;> subst h <;> rfl

theorem lexExponent_none (rest : JsString) (h : Delimited rest) :
    lexExponent rest = some (0, rest) := by
  rcases h with h | ⟨u, h | h⟩ <;> subst h <;> rfl

theorem lexInteger_digits (d : ℕ) (ds : List ℕ) (rest : JsString) (hd0 : 0 < d)
    (hds : ∀ x ∈ d :: ds, x < 10) (hrest : NoDigitAhead rest) :
    lexInteger (digitChars (d :: ds) ++ rest) = some (d :: ds, rest) := by
  have ht := takeDigits_digitChars (d :: ds) rest hds hrest
  have hd : d < 10 := hds d (List.mem_cons_self _ _)
  simp only [digitChars, List.map_cons, List.cons_append] at ht ⊢
  rw [lexInteger, if_neg (by omega), if_pos (by simp [isDigit]; omega), ht]

theorem lexFraction_digits (ds : List ℕ) (rest : JsString) (hne : ds ≠ [])
    (hds : ∀ x ∈ ds, x < 10) (hrest : NoDigitAhead rest) :
    lexFraction (46 :: (digitChars ds ++ rest)) = some (ds, rest) := by
  rw [lexFraction, takeDigits_digitChars ds rest hds hrest]
  simp [hne]

theorem lexExponent_digits (sign : ℕ) (m : ℕ) (rest : JsString) (hm : 0 < m)
    (hsign : sign = 43 ∨ sign = 45) (hrest : NoDigitAhead rest) :
    lexExponent (101 :: sign :: (digitChars (decimalDigits m) ++ rest))
      = some (if sign = 45 then -(m : ℤ) else (m : ℤ), rest) := by
  obtain ⟨d, ds, hds, _, _⟩ := decimalDigits_cons m hm
  have ht := takeDigits_digitChars (decimalDigits m) rest (decimalDigits_lt m) hrest
  have hne : decimalDigits m ≠ [] := by rw [hds]; simp
  rcases hsign with h | h <;> subst h <;>
    simp [lexExponent, lexExponentDigits, ht, hne, ofDecimalDigits_decimalDigits]

/-! ## Number literals -/

theorem lexNumber_formatDecimal (s : ℕ) (n : ℤ) (rest : JsString) (hs : 0 < s)
    (hrest : Delimited rest) :
    lexNumber (formatDecimal s n ++ rest) = some (decimalValue s n, rest) := by
  obtain ⟨d, ds, hds, hd0, hd10⟩ := decimalDigits_cons s hs
  have hlt := decimalDigits_lt s
  have hval := ofDecimalDigits_decimalDigits s
  rw [hds] at hlt hval
  unfold formatDecimal decimalValue
  rw [hds]
  simp only []
  have hk : ((d :: ds).length : ℤ) = ds.length + 1 := by simp
  by_cases hn : -5 ≤ n ∧ n ≤ 21
  · rw [if_pos hn]
    by_cases hkn : ((d :: ds).length : ℤ) ≤ n
    · -- digits followed by zeros
      rw [if_pos hkn]
      obtain ⟨z, hz⟩ : ∃ z : ℕ, n - ((d :: ds).length : ℤ) = z := ⟨_, (Int.toNat_of_nonneg (by omega)).symm⟩
      rw [hz, Int.toNat_ofNat, ← digitChars_replicate, ← digitChars_append, List.cons_append]
      unfold lexNumber
      rw [lexInteger_digits d _ rest hd0 (by
        intro x hx
        rw [← List.cons_append, List.mem_append] at hx
        rcases hx with hx | hx
        · exact hlt x hx
        · rw [List.eq_of_mem_replicate hx]; norm_num) hrest.noDigit]
      simp only [lexFraction_none rest hrest, lexExponent_none rest hrest]
      rw [← List.cons_append, List.append_nil, ofDecimalDigits_append, hval,
        ofDecimalDigits_replicate]
      simp
    · rw [if_neg hkn]
      by_cases hpos : 0 < n
      · -- digits with a decimal point inside
        rw [if_pos hpos]
        obtain ⟨z, hz⟩ : ∃ z : ℕ, n = z + 1 := ⟨(n - 1).toNat, by omega⟩
        have hzlt : z < ds.length := by simp at hkn; omega
        subst hz
        have htake : (d :: ds).take (Int.toNat (z + 1)) = d :: ds.take z := by
          rw [show Int.toNat ((z : ℤ) + 1) = z + 1 by omega]; rfl
        have hdrop : (d :: ds).drop (Int.toNat (z + 1)) = ds.drop z := by
          rw [show Int.toNat ((z : ℤ) + 1) = z + 1 by omega]; rfl
        rw [htake, hdrop]
        unfold lexNumber
        simp only [List.append_assoc, List.cons_append, List.nil_append]
        rw [lexInteger_digits d _ _ hd0 (by
          intro x hx
          exact hlt x (by
            rcases List.mem_cons.1 hx with h | h
            · rw [h]; exact List.mem_cons_self _ _
            · exact List.mem_cons_of_mem _ (List.mem_of_mem_take h))) (noDigit_cons 46 _ rfl)]
        simp only []
        rw [lexFraction_digits _ rest (by
          intro h
          have := congrArg List.length h
          simp at this
          omega) (fun x hx => hlt x (List.mem_cons_of_mem _ (List.mem_of_mem_drop hx)))
          hrest.noDigit]
        simp only [lexExponent_none rest hrest]
        rw [List.cons_append, List.take_append_drop, hval]
        have hexp : (0 : ℤ) - ((List.drop z ds).length : ℤ) = (z : ℤ) + 1 - ((d :: ds).length : ℤ) := by
          rw [List.length_drop, List.length_cons]
          push_cast
          omega
        rw [hexp]
      · -- zero, a decimal point, zeros and the digits
        rw [if_neg hpos]
        obtain ⟨z, hz⟩ : ∃ z : ℕ, -n = z := ⟨_, (Int.toNat_of_nonneg (by omega)).symm⟩
        rw [hz, Int.toNat_ofNat]
        unfold lexNumber
        simp only [List.append_assoc, List.cons_append, List.nil_append]
        rw [lexInteger, if_pos rfl]
        simp only []
        rw [← digitChars_replicate, ← List.append_assoc, ← digitChars_append,
          lexFraction_digits _ rest (by simp) (by
            intro x hx
            rcases List.mem_append.1 hx with hx | hx
            · rw [List.eq_of_mem_replicate hx]; norm_num
            · exact hlt x hx) hrest.noDigit]
        simp only [lexExponent_none rest hrest]
        rw [show [0] ++ (List.replicate z 0 ++ d :: ds) = List.replicate (z + 1) 0 ++ d :: ds from rfl,
          ofDecimalDigits_append, ofDecimalDigits_replicate, hval]
        have hexp : (0 : ℤ) - ((List.replicate z 0 ++ d :: ds).length : ℤ)
            = n - ((d :: ds).length : ℤ) := by
          rw [List.length_append, List.length_replicate]
          push_cast
          omega
        rw [hexp]
        simp
  · -- exponent form
    rw [if_neg hn]
    have hm : 0 < (n - 1).natAbs := by omega
    have hsign : (if n - 1 < 0 then (45 : ℕ) else 43) = 43 ∨ (if n - 1 < 0 then (45 : ℕ) else 43) = 45 := by
      split_ifs <;> simp
    have hexp : (if (if n - 1 < 0 then (45 : ℕ) else 43) = 45 then -((n - 1).natAbs : ℤ)
        else ((n - 1).natAbs : ℤ)) = n - 1 := by
      split_ifs with h1 h2 h2 <;> omega
    cases ds with
    | nil =>
      simp only [List.append_assoc, List.cons_append, List.nil_append]
      unfold lexNumber
      rw [show digitChars [d] ++ 101 :: (if n - 1 < 0 then (45 : ℕ) else 43) ::
          (digitChars (decimalDigits (n - 1).natAbs) ++ rest)
          = digitChars [d] ++ (101 :: (if n - 1 < 0 then (45 : ℕ) else 43) ::
          (digitChars (decimalDigits (n - 1).natAbs) ++ rest)) from rfl,
        lexInteger_digits d [] _ hd0 hlt (noDigit_cons 101 _ rfl)]
      simp only []
      rw [show lexFraction (101 :: (if n - 1 < 0 then (45 : ℕ) else 43) ::
          (digitChars (decimalDigits (n - 1).natAbs) ++ rest)) = some ([], _) from rfl]
      simp only []
      rw [lexExponent_digits _ _ rest hm hsign hrest.noDigit, hexp, List.append_nil, hval]
      simp
    | cons d2 ds2 =>
      simp only [List.append_assoc, List.cons_append, List.nil_append]
      unfold lexNumber
      rw [show digitChars [d] ++ 46 :: (digitChars (d2 :: ds2) ++ 101 ::
          (if n - 1 < 0 then (45 : ℕ) else 43) :: (digitChars (decimalDigits (n - 1).natAbs) ++ rest))
          = digitChars [d] ++ (46 :: (digitChars (d2 :: ds2) ++ 101 ::
          (if n - 1 < 0 then (45 : ℕ) else 43) ::
          (digitChars (decimalDigits (n - 1).natAbs) ++ rest))) from rfl,
        lexInteger_digits d [] _ hd0 (by
          intro x hx; exact hlt x (by simp at hx; simp [hx])) (noDigit_cons 46 _ rfl)]
      simp only []
      rw [lexFraction_digits (d2 :: ds2) _ (by simp)
        (fun x hx => hlt x (List.mem_cons_of_mem _ hx)) (noDigit_cons 101 _ rfl)]
      simp only []
      rw [lexExponent_digits _ _ rest hm hsign hrest.noDigit, hexp,
        show [d] ++ d2 :: ds2 = d :: d2 :: ds2 from rfl, hval]
      simp
      omega

/-! ## Rounding to a double -/

theorem roundHalfEven_natCast (N : ℕ) : roundHalfEven (N : ℚ) = N := by
  unfold roundHalfEven
  simp

theorem roundHalfEven_le (r : ℚ) : roundHalfEven r ≤ ⌊r⌋₊ + 1 := by
  unfold roundHalfEven
  simp only []
  split_ifs <;> omega

theorem binaryExponent_ge (q : ℚ) : -1074 ≤ binaryExponent q := le_max_right _ _

theorem scaled_lt (q : ℚ) : q / 2 ^ binaryExponent q < 2 ^ (53 : ℕ) := by
  have h2 : (0 : ℚ) < 2 ^ binaryExponent q := by positivity
  rw [div_lt_iff₀ h2]
  have h1 : q < (2 : ℚ) ^ (Int.log 2 q + 1) := by
    simpa using Int.lt_zpow_succ_log_self (b := 2) (by norm_num) q
  have h3 : (2 : ℚ) ^ (Int.log 2 q + 1) ≤ 2 ^ (53 : ℕ) * 2 ^ binaryExponent q := by
    rw [← zpow_natCast, ← zpow_add₀ (by norm_num)]
    apply zpow_le_zpow_right₀ (by norm_num)
    have : Int.log 2 q - 52 ≤ binaryExponent q := le_max_left _ _
    push_cast
    omega
  exact lt_of_lt_of_le h1 h3

theorem scaled_natCast (m : ℕ) (e : ℤ) (hm0 : 0 < m) (hm : m ≤ 2 ^ 53) (he : -1074 ≤ e) :
    ∃ N : ℕ, ((m : ℚ) * 2 ^ e) / 2 ^ binaryExponent ((m : ℚ) * 2 ^ e) = N := by
  have hxpos : 0 < (m : ℚ) * 2 ^ e := by positivity
  rcases Nat.lt_or_ge m (2 ^ 53) with hlt | hge
  · -- the exponent does not grow
    have hlog : Int.log 2 ((m : ℚ) * 2 ^ e) < 53 + e := by
      have := (Int.lt_zpow_iff_log_lt (b := 2) (by norm_num) hxpos (x := 53 + e)).1 (by
        push_cast
        rw [zpow_add₀ (by norm_num)]
        apply mul_lt_mul_of_pos_right _ (by positivity)
        have : (m : ℚ) < ((2 ^ 53 : ℕ) : ℚ) := by exact_mod_cast hlt
        have h53 : (2 : ℚ) ^ (53 : ℤ) = ((2 ^ 53 : ℕ) : ℚ) := by norm_num
        rw [h53]
        exact this)
      exact this
    have hle : binaryExponent ((m : ℚ) * 2 ^ e) ≤ e := by
      unfold binaryExponent
      apply max_le <;> omega
    obtain ⟨z, hz⟩ : ∃ z : ℕ, e - binaryExponent ((m : ℚ) * 2 ^ e) = z :=
      ⟨_, (Int.toNat_of_nonneg (by omega)).symm⟩
    refine ⟨m * 2 ^ z, ?_⟩
    rw [mul_div_assoc, ← zpow_sub₀ (by norm_num), hz, zpow_natCast]
    push_cast
    rfl
  · -- the significand rounded up to the next power of two
    have hm53 : m = 2 ^ 53 := le_antisymm hm hge
    have hx : (m : ℚ) * 2 ^ e = 2 ^ (53 + e) := by
      rw [hm53, zpow_add₀ (by norm_num)]
      norm_num
    have hlog : Int.log 2 ((m : ℚ) * 2 ^ e) = 53 + e := by
      rw [hx]
      exact_mod_cast Int.log_zpow (R := ℚ) (b := 2) (by norm_num) (53 + e)
    have hbe : binaryExponent ((m : ℚ) * 2 ^ e) = e + 1 := by
      unfold binaryExponent
      rw [hlog]
      rw [max_eq_left] <;> omega
    refine ⟨2 ^ 52, ?_⟩
    rw [hbe, hx, ← zpow_sub₀ (by norm_num), show 53 + e - (e + 1) = ((52 : ℕ) : ℤ) by omega,
      zpow_natCast]
    norm_num

theorem roundToDouble_natCast_scaled (x : ℚ) (N : ℕ) (h : x / 2 ^ binaryExponent x = N)
    (hfin : x < 2 ^ (1024 : ℕ)) : roundToDouble x = .finite x := by
  have hx : (N : ℚ) * 2 ^ binaryExponent x = x := by
    rw [← h]
    field_simp
  unfold roundToDouble
  simp only []
  rw [h, roundHalfEven_natCast, hx, if_neg (not_le.2 hfin)]

theorem isDoubleValue_of_round (q x : ℚ) (hq : 0 < q) (h : roundToDouble q = .finite x)
    (hx : x ≠ 0) : IsDoubleValue x := by
  unfold roundToDouble at h
  simp only [] at h
  split_ifs at h with hbig
  have hxe : (roundHalfEven (q / 2 ^ binaryExponent q) : ℚ) * 2 ^ binaryExponent q = x := by
    injection h
  set m := roundHalfEven (q / 2 ^ binaryExponent q) with hm
  set e := binaryExponent q with he
  have hm0 : 0 < m := by
    rcases Nat.eq_zero_or_pos m with h0 | h0
    · rw [h0] at hxe
      simp at hxe
      exact absurd hxe.symm hx
    · exact h0
  have hm53 : m ≤ 2 ^ 53 := by
    have h1 := roundHalfEven_le (q / 2 ^ e)
    have h2 : ⌊q / 2 ^ e⌋₊ < 2 ^ 53 := by
      rw [Nat.floor_lt (by positivity)]
      exact_mod_cast scaled_lt q
    omega
  have hege : -1074 ≤ e := binaryExponent_ge q
  obtain ⟨N, hN⟩ := scaled_natCast m e hm0 hm53 hege
  rw [hxe] at hN
  refine ⟨by rw [← hxe]; positivity, roundToDouble_natCast_scaled x N hN ?_, ?_⟩
  · rw [← hxe]; exact not_le.1 hbig
  · obtain ⟨z, hz⟩ : ∃ z : ℕ, e + 1074 = z := ⟨_, (Int.toNat_of_nonneg (by omega)).symm⟩
    refine ⟨m * 2 ^ z * 5 ^ 1074, ?_⟩
    rw [← hxe, show e = (z : ℤ) - 1074 by omega, zpow_sub₀ (by norm_num)]
    push_cast
    rw [show (10 : ℚ) = 2 * 5 by norm_num, mul_pow]
    field_simp
    ring

/-! ## Numbers written and read back -/

theorem roundToDouble_zero : roundToDouble 0 = .finite 0 := by
  unfold roundToDouble roundHalfEven
  simp

theorem digitCandidates_spec (x : ℚ) (k : ℕ) (c : ℕ × ℤ) (hc : c ∈ digitCandidates x k) :
    0 < c.1 ∧ roundToDouble (decimalValue c.1 c.2) = .finite x := by
  unfold digitCandidates at hc
  simp only [] at hc
  generalize hok : List.filter (fun c : ℕ × ℤ =>
      decide (0 < c.1) && decide (roundToDouble (decimalValue c.1 c.2) = .finite x))
    [(⌊x * 10 ^ ((k : ℤ) - (Int.log 10 x + 1))⌋₊, Int.log 10 x + 1),
      if ⌊x * 10 ^ ((k : ℤ) - (Int.log 10 x + 1))⌋₊ + 1 = 10 ^ k then
        (10 ^ (k - 1), Int.log 10 x + 1 + 1)
      else (⌊x * 10 ^ ((k : ℤ) - (Int.log 10 x + 1))⌋₊ + 1, Int.log 10 x + 1)] = ok at hc
  have hmem : c ∈ ok := by
    rcases ok with _ | ⟨a, _ | ⟨b, _ | ⟨d, l⟩⟩⟩
    · exact hc
    · exact hc
    · simp only [] at hc
      split_ifs at hc
      · rw [List.mem_singleton.1 hc]; simp
      · rw [List.mem_singleton.1 hc]; simp
    · exact hc
  rw [← hok] at hmem
  simpa using (List.mem_filter.1 hmem).2

theorem shortestDigits_spec (x : ℚ) (c : ℕ × ℤ) (h : shortestDigits x = some c) :
    0 < c.1 ∧ roundToDouble (decimalValue c.1 c.2) = .finite x := by
  unfold shortestDigits at h
  obtain ⟨i, _, hi⟩ := List.exists_of_findSome?_eq_some h
  exact digitCandidates_spec x (i + 1) c (List.mem_of_mem_head? hi)

theorem exactDigits_spec (x : ℚ) (hx : IsDoubleValue x) :
    0 < (exactDigits x).1 ∧
      roundToDouble (decimalValue (exactDigits x).1 (exactDigits x).2) = .finite x := by
  obtain ⟨hpos, hround, s, hs⟩ := hx
  have hfloor : ⌊x * 10 ^ 1074⌋₊ = s := by rw [hs]; exact Nat.floor_natCast s
  have hspos : 0 < s := by
    have : (0 : ℚ) < s := by rw [← hs]; positivity
    exact_mod_cast this
  unfold exactDigits
  simp only [hfloor]
  refine ⟨hspos, ?_⟩
  have hval : decimalValue s (((decimalDigits s).length : ℤ) - 1074) = x := by
    unfold decimalValue
    rw [show ((decimalDigits s).length : ℤ) - 1074 - ((decimalDigits s).length : ℤ) = -(1074 : ℕ) by
      push_cast; ring, zpow_neg, zpow_natCast, ← hs]
    field_simp
  rw [hval, hround]

theorem positiveToString_spec (x : ℚ) (hx : IsDoubleValue x) :
    ∃ s n, positiveToString x = formatDecimal s n ∧ 0 < s ∧
      roundToDouble (decimalValue s n) = .finite x := by
  unfold positiveToString
  rcases h : shortestDigits x with _ | c
  · exact ⟨_, _, rfl, exactDigits_spec x hx⟩
  · exact ⟨_, _, rfl, shortestDigits_spec x c h⟩

theorem formatDecimal_head (s : ℕ) (n : ℤ) (hs : 0 < s) :
    ∃ c t, formatDecimal s n = c :: t ∧ 48 ≤ c ∧ c ≤ 57 := by
  obtain ⟨d, ds, hds, hd0, hd10⟩ := decimalDigits_cons s hs
  unfold formatDecimal
  rw [hds]
  simp only []
  by_cases h1 : -5 ≤ n ∧ n ≤ 21
  · rw [if_pos h1]
    split_ifs with h2 h3
    · exact ⟨d + 48, _, rfl, by omega, by omega⟩
    · obtain ⟨z, hz⟩ : ∃ z : ℕ, n.toNat = z + 1 := ⟨n.toNat - 1, by omega⟩
      rw [hz]
      exact ⟨d + 48, _, rfl, by omega, by omega⟩
    · exact ⟨48, _, rfl, by omega, by omega⟩
  · rw [if_neg h1]
    cases ds with
    | nil => exact ⟨d + 48, _, rfl, by omega, by omega⟩
    | cons d2 ds2 => exact ⟨d + 48, _, rfl, by omega, by omega⟩

theorem numberToString_head (n : JsNumber) (h : n.IsDouble) (hf : n.isFinite = true) :
    ∃ c t, numberToString n = c :: t ∧ (c = 45 ∨ (48 ≤ c ∧ c ≤ 57)) := by
  cases n with
  | finite q =>
    unfold numberToString
    simp only []
    split_ifs with h0 hneg
    · exact ⟨48, [], rfl, Or.inr ⟨by omega, by omega⟩⟩
    · exact ⟨45, _, rfl, Or.inl rfl⟩
    · have hx : IsDoubleValue q := by
        rcases h with h | h | h
        · exact absurd h h0
        · exact h
        · exact absurd h.1 (by linarith)
      obtain ⟨s, m, hsm, hs, _⟩ := positiveToString_spec q hx
      obtain ⟨c, t, hct, hc⟩ := formatDecimal_head s m hs
      exact ⟨c, t, by rw [hsm, hct], Or.inr hc⟩
  | negZero => exact ⟨48, [], rfl, Or.inr ⟨by omega, by omega⟩⟩
  | posInf => simp [JsNumber.isFinite] at hf
  | negInf => simp [JsNumber.isFinite] at hf
  | nan => simp [JsNumber.isFinite] at hf

theorem lexNumber_zero (rest : JsString) (hd : Delimited rest) :
    lexNumber (48 :: rest) = some (0, rest) := by
  unfold lexNumber
  rw [lexInteger, if_pos rfl]
  simp only [lexFraction_none rest hd, lexExponent_none rest hd]
  simp [ofDecimalDigits]

theorem parseNumber_positive (x : ℚ) (hx : IsDoubleValue x) (rest : JsString)
    (hd : Delimited rest) :
    parseNumber (positiveToString x ++ rest) = some (.finite x, rest) := by
  obtain ⟨s, m, hsm, hs, hr⟩ := positiveToString_spec x hx
  obtain ⟨c, t, hct, hc⟩ := formatDecimal_head s m hs
  have hl := lexNumber_formatDecimal s m rest hs hd
  rw [hsm]
  rw [hct, List.cons_append] at hl ⊢
  unfold parseNumber
  split
  · rename_i heq
    injection heq with h1 _
    omega
  · simp only [hl, hr]

theorem parseNumber_numberToString (n : JsNumber) (h : n.IsDouble) (hf : n.isFinite = true)
    (rest : JsString) (hd : Delimited rest) :
    (parseNumber (numberToString n ++ rest)).map (fun nr => (JsValue.number nr.1, nr.2))
      = some (n.readBack, rest) := by
  have hzero : parseNumber (48 :: rest) = some (.finite 0, rest) := by
    unfold parseNumber
    split
    · rename_i heq
      injection heq with h1 _
      omega
    · simp only [lexNumber_zero rest hd, roundToDouble_zero]
  cases n with
  | finite q =>
    unfold numberToString
    simp only []
    split_ifs with h0 hneg
    · subst h0
      change Option.map _ (parseNumber (48 :: rest)) = _
      rw [hzero]; rfl
    · have hx : IsDoubleValue (-q) := by
        rcases h with h | h | h
        · exact absurd h h0
        · exact absurd h.1 (by linarith)
        · exact h
      obtain ⟨s, m, hsm, hs, hr⟩ := positiveToString_spec (-q) hx
      have hl := lexNumber_formatDecimal s m rest hs hd
      rw [List.cons_append, hsm, parseNumber]
      simp only [hl, hr]
      simp [negateNumber, JsNumber.readBack, h0]
    · have hx : IsDoubleValue q := by
        rcases h with h | h | h
        · exact absurd h h0
        · exact h
        · exact absurd h.1 (by linarith)
      rw [parseNumber_positive q hx rest hd]
      rfl
  | negZero =>
    change Option.map _ (parseNumber (48 :: rest)) = _
    rw [hzero]; rfl
  | posInf => simp [JsNumber.isFinite] at hf
  | negInf => simp [JsNumber.isFinite] at hf
  | nan => simp [JsNumber.isFinite] at hf

theorem lexNumber_nonneg (cs : JsString) (q : ℚ) (r : JsString)
    (h : lexNumber cs = some (q, r)) : 0 ≤ q := by
  unfold lexNumber at h
  split at h
  · cases h
  · split at h
    · cases h
    · split at h
      · cases h
      · injection h with h
        injection h with h1 _
        rw [← h1]
        positivity

theorem roundToDouble_isDouble (q : ℚ) (hq : 0 ≤ q) :
    (roundToDouble q).IsDouble ∧ (negateNumber (roundToDouble q)).IsDouble := by
  rcases hq.eq_or_lt with h0 | hpos
  · rw [← h0, roundToDouble_zero]
    simp [JsNumber.IsDouble, negateNumber]
  · rcases h : roundToDouble q with x | _ | _ | _ | _
    · by_cases hx : x = 0
      · subst hx
        simp [JsNumber.IsDouble, negateNumber]
      · have := isDoubleValue_of_round q x hpos h hx
        simp [JsNumber.IsDouble, negateNumber, hx, this]
    · simp [JsNumber.IsDouble, negateNumber]
    · simp [JsNumber.IsDouble, negateNumber]
    · simp [JsNumber.IsDouble, negateNumber]
    · unfold roundToDouble at h
      simp only [] at h
      split_ifs at h

theorem parseNumber_isDouble (cs : JsString) (n : JsNumber) (r : JsString)
    (h : parseNumber cs = some (n, r)) : n.IsDouble := by
  unfold parseNumber at h
  split at h
  · split at h
    · rename_i q r1 hl
      injection h with h
      injection h with h1 _
      rw [← h1]
      exact (roundToDouble_isDouble q (lexNumber_nonneg _ q r1 hl)).2
    · cases h
  · split at h
    · rename_i q r1 hl
      injection h with h
      injection h with h1 _
      rw [← h1]
      exact (roundToDouble_isDouble q (lexNumber_nonneg _ q r1 hl)).1
    · cases h

/-! ## Whitespace and the first character of a value -/

theorem skipWhitespace_spaces (ind t : JsString) (h : Spaces ind) :
    skipWhitespace (ind ++ t) = skipWhitespace t := by
  induction ind with
  | nil => rfl
  | cons c cs ih =>
    have hc : c = 32 := h c (List.mem_cons_self _ _)
    subst hc
    rw [List.cons_append, skipWhitespace]
    simp only [isWhitespace, decide_True, Bool.true_or, if_true]
    exact ih fun d hd => h d (List.mem_cons_of_mem _ hd)

theorem skipWhitespace_lf (t : JsString) : skipWhitespace (10 :: t) = skipWhitespace t := by
  rw [skipWhitespace]; rfl

theorem skipWhitespace_cons (c : ℕ) (t : JsString) (h : isWhitespace c = false) :
    skipWhitespace (c :: t) = c :: t := by
  rw [skipWhitespace]; simp [h]

theorem StartsValue.not_whitespace {c : ℕ} (h : StartsValue c) : isWhitespace c = false := by
  unfold StartsValue at h
  unfold isWhitespace
  simp only [Bool.or_eq_false_iff, decide_eq_false_iff_not]
  omega

theorem Spaces.append {a b : JsString} (ha : Spaces a) (hb : Spaces b) : Spaces (a ++ b) := by
  intro c hc
  rcases List.mem_append.1 hc with h | h
  · exact ha c h
  · exact hb c h

theorem spaces_gap : Spaces gap := by
  intro c hc
  simp [gap] at hc
  exact hc

theorem quoteJSONString_cons (s : JsString) : quoteJSONString s = 34 :: (quoteChars s ++ [34]) := rfl

theorem serialize_head (indent : JsString) (v : JsValue) (hv : v.Valid) :
    ∃ c t, serializeJSONProperty indent v = c :: t ∧ StartsValue c := by
  cases v with
  | null => exact ⟨110, _, rfl, by simp [StartsValue]⟩
  | bool b => cases b
              · exact ⟨102, _, rfl, by simp [StartsValue]⟩
              · exact ⟨116, _, rfl, by simp [StartsValue]⟩
  | number n =>
    rw [serializeJSONProperty]
    by_cases hf : n.isFinite = true
    · rw [if_pos hf]
      obtain ⟨c, t, hct, hc⟩ := numberToString_head n (by simpa [JsValue.Valid] using hv) hf
      exact ⟨c, t, hct, by unfold StartsValue; omega⟩
    · rw [if_neg hf]
      exact ⟨110, _, rfl, by simp [StartsValue]⟩
  | string s => exact ⟨34, _, by rw [serializeJSONProperty]; rfl, by simp [StartsValue]⟩
  | array xs =>
    cases xs with
    | nil => exact ⟨91, _, by rw [serializeJSONProperty], by simp [StartsValue]⟩
    | cons x xs => exact ⟨91, _, by rw [serializeJSONProperty]; rfl, by simp [StartsValue]⟩
  | object ps =>
    cases ps with
    | nil => exact ⟨123, _, by rw [serializeJSONProperty], by simp [StartsValue]⟩
    | cons x xs => exact ⟨123, _, by rw [serializeJSONProperty]; rfl, by simp [StartsValue]⟩

theorem serializeElements_head (indent : JsString) (x : JsValue) (xs : List JsValue)
    (hv : x.Valid) : ∃ c t, serializeElements indent (x :: xs) = c :: t ∧ StartsValue c := by
  obtain ⟨c, t, h, hc⟩ := serialize_head indent x hv
  cases xs with
  | nil => exact ⟨c, t, by rw [serializeElements, h], hc⟩
  | cons y ys => exact ⟨c, _, by rw [serializeElements, h]; rfl, hc⟩

/-! ## Reading the text of a value -/

theorem insertProp_append {α : Type} (k : JsString) (v : α) (acc : List (JsString × α))
    (h : ∀ p ∈ acc, keyBefore p.1 k) : insertProp k v acc = acc ++ [(k, v)] := by
  induction acc with
  | nil => rfl
  | cons p ps ih =>
    have hp := h p (List.mem_cons_self _ _)
    have ih1 := ih fun q hq => h q (List.mem_cons_of_mem _ hq)
    rw [insertProp]
    unfold keyBefore at hp
    rcases hk : arrayIndex? k with _ | i <;> rcases hj : arrayIndex? p.1 with _ | j <;>
      simp only [hk, hj] at hp ⊢
    · simp [ih1]
    · simp [ih1]
    · exact absurd hp.2 id
    · rw [if_neg (by omega), ih1]; rfl

theorem setProp_append {α : Type} (k : JsString) (v : α) (acc : List (JsString × α))
    (h : ∀ p ∈ acc, keyBefore p.1 k) : setProp acc k v = acc ++ [(k, v)] := by
  unfold setProp
  rw [if_neg, insertProp_append k v acc h]
  simp only [List.any_eq_true, decide_eq_true_eq, not_exists, not_and]
  intro p hp
  exact (h p hp).1

theorem keyBefore_of_pairwise (acc ps : List (JsString × JsValue)) (k : JsString) (v : JsValue)
    (h : ((acc ++ (k, v) :: ps).map Prod.fst).Pairwise keyBefore) :
    ∀ p ∈ acc, keyBefore p.1 k := by
  intro p hp
  rw [List.map_append, List.pairwise_append] at h
  exact h.2.2 p.1 (List.mem_map_of_mem _ hp) k (by simp)

theorem nodeCount_pos (v : JsValue) : 1 ≤ nodeCount v := by
  cases v <;> simp only [nodeCount] <;> omega

theorem parse_serialize :
    (∀ v : JsValue, ∀ indent rest fuel, Spaces indent → Delimited rest → v.Valid →
      nodeCount v ≤ fuel →
      parseValue fuel (serializeJSONProperty indent v ++ rest) = some (v.readBack, rest)) ∧
    (∀ xs : List JsValue, ∀ indent stepback rest fuel acc, xs ≠ [] → Spaces indent →
      Spaces stepback → validList xs → nodeCountList xs + 1 ≤ fuel →
      parseElements fuel (serializeElements indent xs ++ 10 :: (stepback ++ 93 :: rest)) acc
        = some (.array (acc ++ readBackList xs), rest)) ∧
    (∀ ps : List (JsString × JsValue), ∀ indent stepback rest fuel acc, ps ≠ [] →
      Spaces indent → Spaces stepback → validProps ps →
      ((acc ++ ps).map Prod.fst).Pairwise keyBefore → nodeCountProps ps + 1 ≤ fuel →
      parseMembers fuel (serializeMembers indent ps ++ 10 :: (stepback ++ 125 :: rest)) acc
        = some (.object (acc ++ readBackProps ps), rest)) := by
  apply JsValue.induct3
  · -- null
    intro indent rest fuel _ _ _ hfuel
    obtain ⟨f, rfl⟩ : ∃ f, fuel = f + 1 := ⟨fuel - 1, by simp [nodeCount] at hfuel; omega⟩
    simp [serializeJSONProperty, utf16, parseValue, expectChars, JsValue.readBack]
  · -- bool
    intro b indent rest fuel _ _ _ hfuel
    obtain ⟨f, rfl⟩ : ∃ f, fuel = f + 1 := ⟨fuel - 1, by simp [nodeCount] at hfuel; omega⟩
    cases b <;> simp [serializeJSONProperty, utf16, parseValue, expectChars, JsValue.readBack]
  · -- number
    intro n indent rest fuel _ hrest hv hfuel
    obtain ⟨f, rfl⟩ : ∃ f, fuel = f + 1 := ⟨fuel - 1, by simp [nodeCount] at hfuel; omega⟩
    rw [serializeJSONProperty]
    by_cases hf : n.isFinite = true
    · rw [if_pos hf]
      have hd : n.IsDouble := by simpa [JsValue.Valid] using hv
      obtain ⟨c, t, hct, hc⟩ := numberToString_head n hd hf
      have hp := parseNumber_numberToString n hd hf rest hrest
      rw [hct, List.cons_append] at hp ⊢
      rw [parseValue]
      have h1 : c ≠ 110 ∧ c ≠ 116 ∧ c ≠ 102 ∧ c ≠ 34 ∧ c ≠ 91 ∧ c ≠ 123 := by
        omega
      simp only [h1.1, h1.2.1, h1.2.2.1, h1.2.2.2.1, h1.2.2.2.2.1, h1.2.2.2.2.2, if_false]
      rw [hp]; rfl
    · rw [if_neg hf]
      have : n.readBack = .null := by
        cases n <;> simp_all [JsNumber.isFinite, JsNumber.readBack]
      simp [utf16, parseValue, expectChars, JsValue.readBack, this]
  · -- string
    intro s indent rest fuel _ _ _ hfuel
    obtain ⟨f, rfl⟩ : ∃ f, fuel = f + 1 := ⟨fuel - 1, by simp [nodeCount] at hfuel; omega⟩
    rw [serializeJSONProperty, quoteJSONString_cons, List.cons_append, parseValue]
    simp only [show ¬ (34 : ℕ) = 110 by decide, show ¬ (34 : ℕ) = 116 by decide,
      show ¬ (34 : ℕ) = 102 by decide, if_false, if_true, parse_quoteJSONString]
    rfl
  · -- array
    intro xs ih indent rest fuel hind hrest hv hfuel
    rw [nodeCount] at hfuel
    obtain ⟨f, rfl⟩ : ∃ f, fuel = f + 1 := ⟨fuel - 1, by omega⟩
    cases xs with
    | nil =>
      simp [serializeJSONProperty, parseValue, skipWhitespace, isWhitespace, JsValue.readBack,
        readBackList]
    | cons x xs =>
      have hv1 : validList (x :: xs) := by simpa [JsValue.Valid] using hv
      have hx : x.Valid := by rw [validList] at hv1; exact hv1.1
      obtain ⟨d, ds, hd, hdv⟩ := serializeElements_head (indent ++ gap) x xs hx
      have := ih (indent ++ gap) indent rest f [] (by simp) (hind.append spaces_gap) hind hv1
        (by omega)
      rw [hd] at this
      rw [serializeJSONProperty, hd, JsValue.readBack]
      simp only [List.append_assoc, List.cons_append, List.nil_append] at this ⊢
      rw [parseValue]
      simp only [show ¬ (91 : ℕ) = 110 by decide, show ¬ (91 : ℕ) = 116 by decide,
        show ¬ (91 : ℕ) = 102 by decide, show ¬ (91 : ℕ) = 34 by decide, if_false, if_true]
      rw [skipWhitespace_lf, skipWhitespace_spaces _ _ hind, skipWhitespace_spaces _ _ spaces_gap,
        skipWhitespace_cons d _ hdv.not_whitespace]
      have hd93 : d ≠ 93 := by unfold StartsValue at hdv; omega
      simp only [hd93, if_false, this]
  · -- object
    intro ps ih indent rest fuel hind hrest hv hfuel
    rw [nodeCount] at hfuel
    obtain ⟨f, rfl⟩ : ∃ f, fuel = f + 1 := ⟨fuel - 1, by omega⟩
    cases ps with
    | nil =>
      simp [serializeJSONProperty, parseValue, skipWhitespace, isWhitespace, JsValue.readBack,
        readBackProps]
    | cons p ps =>
      have hv1 : ((p :: ps).map Prod.fst).Pairwise keyBefore ∧ validProps (p :: ps) := by
        simpa [JsValue.Valid] using hv
      have := ih (indent ++ gap) indent rest f [] (by simp) (hind.append spaces_gap) hind hv1.2
        (by simpa using hv1.1) (by omega)
      have hd : ∃ ds, serializeMembers (indent ++ gap) (p :: ps) = 34 :: ds := by
        cases ps with
        | nil => exact ⟨_, by rw [serializeMembers, quoteJSONString_cons]; rfl⟩
        | cons q qs => exact ⟨_, by rw [serializeMembers, quoteJSONString_cons]; rfl⟩
      obtain ⟨ds, hd⟩ := hd
      rw [hd] at this
      rw [serializeJSONProperty, hd, JsValue.readBack]
      simp only [List.append_assoc, List.cons_append, List.nil_append] at this ⊢
      rw [parseValue]
      simp only [show ¬ (123 : ℕ) = 110 by decide, show ¬ (123 : ℕ) = 116 by decide,
        show ¬ (123 : ℕ) = 102 by decide, show ¬ (123 : ℕ) = 34 by decide,
        show ¬ (123 : ℕ) = 91 by decide, if_false, if_true]
      rw [skipWhitespace_lf, skipWhitespace_spaces _ _ hind, skipWhitespace_spaces _ _ spaces_gap,
        skipWhitespace_cons 34 _ (by decide)]
      simp only [show ¬ (34 : ℕ) = 125 by decide, if_false, this]
  · -- no element
    intro indent stepback rest fuel acc h
    exact absurd rfl h
  · -- elements
    intro x xs ihx ihxs indent stepback rest fuel acc _ hind hstep hv hfuel
    rw [nodeCountList] at hfuel
    obtain ⟨f, rfl⟩ : ∃ f, fuel = f + 1 := ⟨fuel - 1, by omega⟩
    rw [validList] at hv
    have hnx : 1 ≤ nodeCount x := nodeCount_pos x
    cases xs with
    | nil =>
      rw [serializeElements, parseElements,
        ihx indent _ f hind (Or.inr ⟨_, Or.inr rfl⟩) hv.1 (by simp [nodeCountList] at hfuel; omega)]
      simp only [skipWhitespace_lf, skipWhitespace_spaces _ _ hstep]
      rw [skipWhitespace_cons 93 _ (by decide)]
      simp [readBackList]
    | cons y ys =>
      obtain ⟨d, ds, hd, hdv⟩ := serializeElements_head indent y ys (by
        have := hv.2; rw [validList] at this; exact this.1)
      have hny : 1 ≤ nodeCountList (y :: ys) := by
        rw [nodeCountList]
        have : 1 ≤ nodeCount y := nodeCount_pos y
        omega
      have ih2 := ihxs indent stepback rest f (acc ++ [x.readBack]) (by simp) hind hstep hv.2
        (by omega)
      rw [serializeElements]
      simp only [List.append_assoc, List.cons_append, List.nil_append]
      rw [parseElements, ihx indent _ f hind (Or.inr ⟨_, Or.inl rfl⟩) hv.1 (by omega)]
      simp only []
      rw [skipWhitespace_cons 44 _ (by decide)]
      simp only [if_true]
      rw [skipWhitespace_lf, skipWhitespace_spaces _ _ hind]
      rw [hd] at ih2 ⊢
      rw [List.cons_append, skipWhitespace_cons d _ hdv.not_whitespace]
      rw [List.cons_append] at ih2
      rw [ih2]
      simp [readBackList]
  · -- no member
    intro indent stepback rest fuel acc h
    exact absurd rfl h
  · -- members
    intro k v ps ihv ihps indent stepback rest fuel acc _ hind hstep hv hpw hfuel
    rw [nodeCountProps] at hfuel
    dsimp only at hfuel
    obtain ⟨f, rfl⟩ : ∃ f, fuel = f + 1 := ⟨fuel - 1, by omega⟩
    rw [validProps] at hv
    dsimp only at hv
    have hnv : 1 ≤ nodeCount v := nodeCount_pos v
    have hset : setProp acc k v.readBack = acc ++ [(k, v.readBack)] :=
      setProp_append k _ acc (keyBefore_of_pairwise acc ps k v hpw)
    obtain ⟨c, t, hct, hc⟩ := serialize_head indent v hv.1
    cases ps with
    | nil =>
      rw [serializeMembers, quoteJSONString_cons]
      simp only [List.append_assoc, List.cons_append, List.nil_append]
      rw [parseMembers]
      simp only [if_true, parse_quoteChars]
      rw [skipWhitespace_cons 58 _ (by decide)]
      simp only [if_true]
      rw [skipWhitespace, if_pos (by decide), hct, List.cons_append,
        skipWhitespace_cons c _ hc.not_whitespace, ← List.cons_append, ← hct,
        ihv indent _ f hind (Or.inr ⟨_, Or.inr rfl⟩) hv.1 (by simp [nodeCountProps] at hfuel; omega)]
      simp only [skipWhitespace_lf, skipWhitespace_spaces _ _ hstep]
      rw [skipWhitespace_cons 125 _ (by decide)]
      simp [readBackProps, hset]
    | cons q qs =>
      have hnq : 1 ≤ nodeCountProps (q :: qs) := by
        rw [nodeCountProps]
        have : 1 ≤ nodeCount q.2 := nodeCount_pos q.2
        omega
      have ih2 := ihps indent stepback rest f (acc ++ [(k, v.readBack)]) (by simp) hind hstep
        hv.2 (by simpa using hpw) (by omega)
      have hd : ∃ ds, serializeMembers indent (q :: qs) = 34 :: ds := by
        cases qs with
        | nil => exact ⟨_, by rw [serializeMembers, quoteJSONString_cons]; rfl⟩
        | cons q qs => exact ⟨_, by rw [serializeMembers, quoteJSONString_cons]; rfl⟩
      obtain ⟨ds, hd⟩ := hd
      rw [serializeMembers, quoteJSONString_cons]
      simp only [List.append_assoc, List.cons_append, List.nil_append]
      rw [parseMembers]
      simp only [if_true, parse_quoteChars]
      rw [skipWhitespace_cons 58 _ (by decide)]
      simp only [if_true]
      rw [skipWhitespace, if_pos (by decide), hct, List.cons_append,
        skipWhitespace_cons c _ hc.not_whitespace, ← List.cons_append, ← hct,
        ihv indent _ f hind (Or.inr ⟨_, Or.inl rfl⟩) hv.1 (by omega)]
      simp only []
      rw [skipWhitespace_cons 44 _ (by decide)]
      simp only [if_true]
      rw [skipWhitespace_lf, skipWhitespace_spaces _ _ hind, hset]
      rw [hd] at ih2 ⊢
      rw [List.cons_append, skipWhitespace_cons 34 _ (by decide)]
      rw [List.cons_append] at ih2
      rw [ih2]
      simp [readBackProps]

/-! ## Values built by the reader -/

theorem validList_iff (xs : List JsValue) : validList xs ↔ ∀ x ∈ xs, x.Valid := by
  induction xs with
  | nil => simp [validList]
  | cons x xs ih => simp [validList, ih]

theorem validProps_iff (ps : List (JsString × JsValue)) :
    validProps ps ↔ ∀ p ∈ ps, p.2.Valid := by
  induction ps with
  | nil => simp [validProps]
  | cons p ps ih => simp [validProps, ih]

theorem mem_insertProp {α : Type} (k : JsString) (v : α) (ps : List (JsString × α))
    (p : JsString × α) (h : p ∈ insertProp k v ps) : p = (k, v) ∨ p ∈ ps := by
  induction ps with
  | nil => simpa [insertProp] using h
  | cons q qs ih =>
    rw [insertProp] at h
    split at h
    · split_ifs at h
      · simpa using h
      · rcases List.mem_cons.1 h with h | h
        · exact Or.inr (by simp [h])
        · rcases ih h with h | h
          · exact Or.inl h
          · exact Or.inr (List.mem_cons_of_mem _ h)
    · simpa using h
    · rcases List.mem_cons.1 h with h | h
      · exact Or.inr (by simp [h])
      · rcases ih h with h | h
        · exact Or.inl h
        · exact Or.inr (List.mem_cons_of_mem _ h)

theorem mem_setProp {α : Type} (k : JsString) (v : α) (ps : List (JsString × α))
    (p : JsString × α) (h : p ∈ setProp ps k v) : p = (k, v) ∨ p ∈ ps := by
  unfold setProp at h
  split_ifs at h
  · obtain ⟨q, hq, hqp⟩ := List.mem_map.1 h
    split_ifs at hqp
    · exact Or.inl hqp.symm
    · exact Or.inr (hqp ▸ hq)
  · exact mem_insertProp k v ps p h

theorem insertProp_pairwise {α : Type} (k : JsString) (v : α) (ps : List (JsString × α))
    (hk : ∀ p ∈ ps, p.1 ≠ k) (hpw : (ps.map Prod.fst).Pairwise keyBefore) :
    ((insertProp k v ps).map Prod.fst).Pairwise keyBefore := by
  induction ps with
  | nil => simp [insertProp]
  | cons q qs ih =>
    have hq : q.1 ≠ k := hk q (List.mem_cons_self _ _)
    have hqs : ∀ p ∈ qs, p.1 ≠ k := fun p hp => hk p (List.mem_cons_of_mem _ hp)
    rw [List.map_cons, List.pairwise_cons] at hpw
    have ih1 := ih hqs hpw.2
    have hafter : keyBefore q.1 k → ((q :: insertProp k v qs).map Prod.fst).Pairwise keyBefore := by
      intro hqk
      rw [List.map_cons, List.pairwise_cons]
      refine ⟨?_, ih1⟩
      intro a ha
      obtain ⟨p, hp, rfl⟩ := List.mem_map.1 ha
      rcases mem_insertProp k v qs p hp with h | h
      · rw [h]; exact hqk
      · exact hpw.1 _ (List.mem_map_of_mem _ h)
    have hbefore : (∀ a ∈ (q :: qs).map Prod.fst, keyBefore k a) →
        (((k, v) :: q :: qs).map Prod.fst).Pairwise keyBefore := by
      intro h
      rw [List.map_cons, List.pairwise_cons]
      exact ⟨h, by rw [List.map_cons, List.pairwise_cons]; exact hpw⟩
    rw [insertProp]
    rcases hik : arrayIndex? k with _ | i <;> rcases hjq : arrayIndex? q.1 with _ | j <;>
      simp only []
    · exact hafter ⟨hq, by simp [hik, hjq]⟩
    · exact hafter ⟨hq, by simp [hik, hjq]⟩
    · apply hbefore
      intro a ha
      rcases List.mem_cons.1 ha with h | h
      · rw [h]; exact ⟨fun h => hq h.symm, by simp [hik, hjq]⟩
      · obtain ⟨p, hp, rfl⟩ := List.mem_map.1 h
        have h1 := hpw.1 _ (List.mem_map_of_mem _ hp)
        refine ⟨fun h => hqs p hp h.symm, ?_⟩
        have h2 := h1.2
        rw [hjq] at h2
        rcases hp1 : arrayIndex? p.1 with _ | l
        · simp [hik]
        · simp [hp1] at h2
    · split_ifs with hij
      · apply hbefore
        intro a ha
        rcases List.mem_cons.1 ha with h | h
        · rw [h]; exact ⟨fun h => hq h.symm, by simp [hik, hjq]; omega⟩
        · obtain ⟨p, hp, rfl⟩ := List.mem_map.1 h
          have h1 := hpw.1 _ (List.mem_map_of_mem _ hp)
          refine ⟨fun h => hqs p hp h.symm, ?_⟩
          have h2 := h1.2
          rw [hjq] at h2
          rcases hp1 : arrayIndex? p.1 with _ | l
          · simp [hik]
          · simp [hp1] at h2
            simp [hik]
            omega
      · exact hafter ⟨hq, by simp [hik, hjq]; omega⟩

theorem setProp_pairwise {α : Type} (k : JsString) (v : α) (ps : List (JsString × α))
    (hpw : (ps.map Prod.fst).Pairwise keyBefore) :
    ((setProp ps k v).map Prod.fst).Pairwise keyBefore := by
  unfold setProp
  split_ifs with h
  · have : (ps.map fun p => if p.1 = k then (k, v) else p).map Prod.fst = ps.map Prod.fst := by
      rw [List.map_map]
      apply List.map_congr_left
      intro p _
      simp only [Function.comp]
      split_ifs with hp
      · exact hp.symm
      · rfl
    rw [this]
    exact hpw
  · apply insertProp_pairwise k v ps _ hpw
    intro p hp hpk
    apply h
    simp only [List.any_eq_true, decide_eq_true_eq]
    exact ⟨p, hp, hpk⟩

theorem parse_valid (fuel : ℕ) :
    (∀ s v r, parseValue fuel s = some (v, r) → v.Valid) ∧
    (∀ s acc v r, validList acc → parseElements fuel s acc = some (v, r) → v.Valid) ∧
    (∀ s acc v r, (acc.map Prod.fst).Pairwise keyBefore → validProps acc →
      parseMembers fuel s acc = some (v, r) → v.Valid) := by
  induction fuel with
  | zero =>
    refine ⟨?_, ?_, ?_⟩
    · intro s v r h; rw [parseValue] at h; cases h
    · intro s acc v r _ h; rw [parseElements] at h; cases h
    · intro s acc v r _ _ h; rw [parseMembers] at h; cases h
  | succ f ih =>
    obtain ⟨ihv, ihe, ihm⟩ := ih
    refine ⟨?_, ?_, ?_⟩
    · intro s v r h
      cases s with
      | nil => rw [parseValue] at h; cases h
      | cons c cs =>
        rw [parseValue] at h
        split_ifs at h
        · rcases hx : expectChars [117, 108, 108] cs with _ | x <;> rw [hx] at h <;>
            simp at h
          rw [← h.1]; simp [JsValue.Valid]
        · rcases hx : expectChars [114, 117, 101] cs with _ | x <;> rw [hx] at h <;>
            simp at h
          rw [← h.1]; simp [JsValue.Valid]
        · rcases hx : expectChars [97, 108, 115, 101] cs with _ | x <;> rw [hx] at h <;>
            simp at h
          rw [← h.1]; simp [JsValue.Valid]
        · rcases hx : parseStringBody cs with _ | x <;> rw [hx] at h <;> simp at h
          rw [← h.1]; simp [JsValue.Valid]
        · split at h
          · cases h
          · split_ifs at h
            · simp at h
              rw [← h.1]; simp [JsValue.Valid, validList]
            · exact ihe _ _ _ _ (by simp [validList]) h
        · split at h
          · cases h
          · split_ifs at h
            · simp at h
              rw [← h.1]; simp [JsValue.Valid, validProps]
            · exact ihm _ _ _ _ (by simp) (by simp [validProps]) h
        · rcases hx : parseNumber (c :: cs) with _ | x <;> rw [hx] at h <;> simp at h
          rw [← h.1]
          simp only [JsValue.Valid]
          exact parseNumber_isDouble _ x.1 x.2 hx
    · intro s acc v r hacc h
      rw [parseElements] at h
      split at h
      · cases h
      · rename_i w r1 hw
        have hwv := ihv _ _ _ hw
        have hacc1 : validList (acc ++ [w]) := by
          rw [validList_iff] at hacc ⊢
          intro x hx
          rcases List.mem_append.1 hx with hx | hx
          · exact hacc x hx
          · rw [List.mem_singleton.1 hx]; exact hwv
        split at h
        · cases h
        · split_ifs at h
          · exact ihe _ _ _ _ hacc1 h
          · simp at h
            rw [← h.1]
            simpa [JsValue.Valid] using hacc1
    · intro s acc v r hpw hacc h
      cases s with
      | nil => rw [parseMembers] at h; cases h
      | cons c cs =>
        rw [parseMembers] at h
        split_ifs at h
        split at h
        · cases h
        · rename_i k r0 hk
          split at h
          · cases h
          · split_ifs at h
            split at h
            · cases h
            · rename_i w r1 hw
              have hwv := ihv _ _ _ hw
              have hacc1 : validProps (setProp acc k w) := by
                rw [validProps_iff] at hacc ⊢
                intro p hp
                rcases mem_setProp k w acc p hp with hp | hp
                · rw [hp]; exact hwv
                · exact hacc p hp
              have hpw1 := setProp_pairwise k w acc hpw
              split at h
              · cases h
              · split_ifs at h
                · exact ihm _ _ _ _ hpw1 hacc1 h
                · simp at h
                  rw [← h.1]
                  simp only [JsValue.Valid]
                  exact ⟨hpw1, hacc1⟩

/-! ## The whole text -/

theorem nodeCount_le_length :
    (∀ v : JsValue, ∀ indent, nodeCount v ≤ (serializeJSONProperty indent v).length + 1) ∧
    (∀ xs : List JsValue, ∀ indent,
      nodeCountList xs ≤ (serializeElements indent xs).length + 1) ∧
    (∀ ps : List (JsString × JsValue), ∀ indent,
      nodeCountProps ps ≤ (serializeMembers indent ps).length + 1) := by
  apply JsValue.induct3
  · intro indent; simp [nodeCount]
  · intro b indent; simp [nodeCount]
  · intro n indent; simp [nodeCount]
  · intro s indent; simp [nodeCount]
  · intro xs ih indent
    cases xs with
    | nil => simp [nodeCount, nodeCountList, serializeJSONProperty]
    | cons x xs =>
      have := ih (indent ++ gap)
      rw [nodeCount, serializeJSONProperty]
      simp only [List.length_append, List.length_cons, List.length_nil]
      omega
  · intro ps ih indent
    cases ps with
    | nil => simp [nodeCount, nodeCountProps, serializeJSONProperty]
    | cons p ps =>
      have := ih (indent ++ gap)
      rw [nodeCount, serializeJSONProperty]
      simp only [List.length_append, List.length_cons, List.length_nil]
      omega
  · intro indent; simp [nodeCountList]
  · intro x xs ihx ihxs indent
    cases xs with
    | nil =>
      have := ihx indent
      rw [nodeCountList, nodeCountList, serializeElements]
      omega
    | cons y ys =>
      have h1 := ihx indent
      have h2 := ihxs indent
      rw [nodeCountList, serializeElements]
      simp only [List.length_append, List.length_cons, List.length_nil]
      omega
  · intro indent; simp [nodeCountProps]
  · intro k v ps ihv ihps indent
    cases ps with
    | nil =>
      have := ihv indent
      rw [nodeCountProps, nodeCountProps, serializeMembers]
      simp only [List.length_append, List.length_cons, List.length_nil]
      omega
    | cons q qs =>
      have h1 := ihv indent
      have h2 := ihps indent
      rw [nodeCountProps, serializeMembers]
      simp only [List.length_append, List.length_cons, List.length_nil]
      omega

/-- Reading the text that `JSON.stringify(value, null, 2)` writes gives the
value back, up to the numbers that JSON cannot write. -/
theorem JSON_parse_serialize (v : JsValue) (hv : v.Valid) :
    JSON_parse (serializeJSONProperty [] v) = some v.readBack := by
  obtain ⟨c, t, hct, hc⟩ := serialize_head [] v hv
  have h := parse_serialize.1 v [] [] ((serializeJSONProperty [] v).length + 1)
    (by intro c hc; cases hc) (Or.inl rfl) hv (nodeCount_le_length.1 v [])
  rw [List.append_nil] at h
  unfold JSON_parse
  rw [hct, skipWhitespace_cons c t hc.not_whitespace, ← hct, h]
  rfl

theorem readBack_of_numbersExact :
    (∀ v : JsValue, v.NumbersExact → v.readBack = v) ∧
    (∀ xs : List JsValue, numbersExactList xs → readBackList xs = xs) ∧
    (∀ ps : List (JsString × JsValue), numbersExactProps ps → readBackProps ps = ps) := by
  apply JsValue.induct3
  · intro _; rfl
  · intro b _; rfl
  · intro n h
    obtain ⟨q, rfl⟩ : ∃ q, n = .finite q := by simpa [JsValue.NumbersExact] using h
    rfl
  · intro s _; rfl
  · intro xs ih h
    rw [JsValue.readBack, ih (by simpa [JsValue.NumbersExact] using h)]
  · intro ps ih h
    rw [JsValue.readBack, ih (by simpa [JsValue.NumbersExact] using h)]
  · intro _; rfl
  · intro x xs ihx ihxs h
    rw [numbersExactList] at h
    rw [readBackList, ihx h.1, ihxs h.2]
  · intro _; rfl
  · intro k v ps ihv ihps h
    rw [numbersExactProps] at h
    rw [readBackProps, ihv h.1, ihps h.2]

theorem JSON_parse_valid (text : JsString) (v : JsValue) (h : JSON_parse text = some v) :
    v.Valid := by
  unfold JSON_parse at h
  split at h
  · cases h
  · rename_i w r hw
    split_ifs at h
    injection h with h
    rw [← h]
    exact (parse_valid _).1 _ _ _ hw

theorem express_json_valid (raw : JsString) (d : JsValue) (h : express_json raw = some d) :
    d.Valid := by
  unfold express_json at h
  split_ifs at h
  · injection h with h
    rw [← h]
    simp [JsValue.Valid, validProps]
  · split at h
    · cases h
    · split_ifs at h
      exact JSON_parse_valid raw d h

/-! ## Text stored as UTF-8 -/

theorem toWellFormed_append (a b : JsString) (ha : toWellFormed a = a) :
    toWellFormed (a ++ b) = a ++ toWellFormed b := by
  induction a using toWellFormed.induct with
  | case1 => rfl
  | case2 c hc =>
    rw [toWellFormed, if_pos hc] at ha
    injection ha with h _
    subst h
    simp [isHighSurrogate, isLowSurrogate] at hc
  | case3 c hc =>
    cases b with
    | nil => simp [toWellFormed, hc]
    | cons d rest =>
      have hc1 : ¬ ((isHighSurrogate c && isLowSurrogate d) = true) := by
        intro h
        apply hc
        simp only [Bool.and_eq_true] at h
        simp [h.1]
      simp only [List.cons_append, List.nil_append]
      rw [toWellFormed, if_neg hc1, if_neg hc]
  | case4 c d rest h ih =>
    rw [toWellFormed, if_pos h] at ha
    injection ha with _ ha
    injection ha with _ ha
    simp only [List.cons_append]
    rw [toWellFormed, if_pos h, ih ha]
  | case5 c d rest h1 h2 ih =>
    rw [toWellFormed, if_neg h1, if_pos h2] at ha
    injection ha with h _
    subst h
    simp [isHighSurrogate, isLowSurrogate] at h2
  | case6 c d rest h1 h2 ih =>
    rw [toWellFormed, if_neg h1, if_neg h2] at ha
    injection ha with _ ha
    simp only [List.cons_append] at ih ⊢
    rw [toWellFormed, if_neg h1, if_neg h2, ih ha]

theorem toWellFormed_append_fixed (a b : JsString) (ha : toWellFormed a = a)
    (hb : toWellFormed b = b) : toWellFormed (a ++ b) = a ++ b := by
  rw [toWellFormed_append a b ha, hb]

theorem toWellFormed_cons (c : ℕ) (b : JsString) (hc : c < 0xD800) :
    toWellFormed (c :: b) = c :: toWellFormed b := by
  have : toWellFormed [c] = [c] := by
    rw [toWellFormed, if_neg]
    simp only [isHighSurrogate, isLowSurrogate, Bool.or_eq_true, Bool.and_eq_true,
      decide_eq_true_eq]
    omega
  exact toWellFormed_append [c] b this

theorem toWellFormed_plain (s : JsString) (h : ∀ c ∈ s, c < 0xD800) : toWellFormed s = s := by
  induction s with
  | nil => rfl
  | cons c cs ih =>
    rw [toWellFormed_cons c cs (h c (List.mem_cons_self _ _)),
      ih fun d hd => h d (List.mem_cons_of_mem _ hd)]

theorem hexChar_lt (d : ℕ) (h : d < 16) : hexChar d < 0xD800 := by
  unfold hexChar
  split_ifs <;> omega

theorem toWellFormed_quoteUnit (c : ℕ) : toWellFormed (quoteUnit c) = quoteUnit c := by
  unfold quoteUnit
  split_ifs with h8 h9 h10 h12 h13 h34 h92 hesc
  · exact toWellFormed_plain _ (by simp)
  · exact toWellFormed_plain _ (by simp)
  · exact toWellFormed_plain _ (by simp)
  · exact toWellFormed_plain _ (by simp)
  · exact toWellFormed_plain _ (by simp)
  · exact toWellFormed_plain _ (by simp)
  · exact toWellFormed_plain _ (by simp)
  · apply toWellFormed_plain
    intro x hx
    simp only [unicodeEscape, List.mem_cons, List.mem_singleton, List.not_mem_nil, or_false] at hx
    rcases hx with h | h | h | h | h | h <;> rw [h]
    · norm_num
    · norm_num
    all_goals exact hexChar_lt _ (Nat.mod_lt _ (by norm_num))
  · rw [toWellFormed, if_neg]
    intro h
    apply hesc
    simp only [Bool.or_eq_true] at h ⊢
    rcases h with h | h
    · exact Or.inl (Or.inr h)
    · exact Or.inr h

theorem toWellFormed_quoteChars (s : JsString) : toWellFormed (quoteChars s) = quoteChars s := by
  induction s using quoteChars.induct with
  | case1 => rfl
  | case2 c => rw [quoteChars]; exact toWellFormed_quoteUnit c
  | case3 c d rest h ih => rw [quoteChars, if_pos h, toWellFormed, if_pos h, ih]
  | case4 c d rest h ih =>
    rw [quoteChars, if_neg h]
    exact toWellFormed_append_fixed _ _ (toWellFormed_quoteUnit c) ih

theorem toWellFormed_quoteJSONString (s : JsString) :
    toWellFormed (quoteJSONString s) = quoteJSONString s := by
  rw [quoteJSONString_cons, toWellFormed_cons 34 _ (by norm_num),
    toWellFormed_append_fixed _ _ (toWellFormed_quoteChars s) (toWellFormed_plain _ (by simp))]

theorem digitChars_plain (ds : List ℕ) (h : ∀ d ∈ ds, d < 10) : ∀ c ∈ digitChars ds, c < 0xD800 := by
  intro c hc
  obtain ⟨d, hd, rfl⟩ := List.mem_map.1 hc
  have := h d hd
  omega

theorem formatDecimal_plain (s : ℕ) (n : ℤ) : ∀ c ∈ formatDecimal s n, c < 0xD800 := by
  have hds := digitChars_plain _ (decimalDigits_lt s)
  have hex := digitChars_plain _ (decimalDigits_lt (n - 1).natAbs)
  have hsub : ∀ l : List ℕ, (∀ d ∈ l, d ∈ decimalDigits s) → ∀ c ∈ digitChars l, c < 0xD800 :=
    fun l hl => digitChars_plain l fun d hd => decimalDigits_lt s d (hl d hd)
  intro c hc
  unfold formatDecimal at hc
  simp only [] at hc
  by_cases h1 : -5 ≤ n ∧ n ≤ 21
  · rw [if_pos h1] at hc
    split_ifs at hc
    · rcases List.mem_append.1 hc with h | h
      · exact hds c h
      · rw [List.eq_of_mem_replicate h]; norm_num
    · simp only [List.mem_append, List.mem_singleton] at hc
      rcases hc with (h | h) | h
      · exact hsub _ (fun d hd => List.mem_of_mem_take hd) c h
      · rw [h]; norm_num
      · exact hsub _ (fun d hd => List.mem_of_mem_drop hd) c h
    · simp only [List.mem_append, List.mem_cons, List.not_mem_nil, or_false] at hc
      rcases hc with ((h | h) | h) | h
      · rw [h]; norm_num
      · rw [h]; norm_num
      · rw [List.eq_of_mem_replicate h]; norm_num
      · exact hds c h
  · rw [if_neg h1] at hc
    have hsign : (if n - 1 < 0 then (45 : ℕ) else 43) < 0xD800 := by split_ifs <;> norm_num
    rcases hd : decimalDigits s with _ | ⟨d, _ | ⟨d2, ds2⟩⟩ <;> rw [hd] at hc hsub <;>
      simp only [List.mem_append, List.mem_cons, List.not_mem_nil, or_false] at hc
    · rcases hc with (h | h | h) | h
      · exact hsub [d] (by simp) c h
      · rw [h]; norm_num
      · rw [h]; exact hsign
      · exact hex c h
    · rcases hc with (((h | h) | h) | h | h) | h
      · exact hsub [d] (by simp) c h
      · rw [h]; norm_num
      · exact hsub (d2 :: ds2) (fun x hx => List.mem_cons_of_mem _ hx) c h
      · rw [h]; norm_num
      · rw [h]; exact hsign
      · exact hex c h

theorem numberToString_plain (n : JsNumber) : ∀ c ∈ numberToString n, c < 0xD800 := by
  cases n with
  | finite q =>
    unfold numberToString positiveToString
    simp only []
    split_ifs
    · decide
    · intro c hc
      rcases List.mem_cons.1 hc with h | h
      · rw [h]; norm_num
      · exact formatDecimal_plain _ _ c h
    · exact formatDecimal_plain _ _
  | negZero => decide
  | posInf => decide
  | negInf => decide
  | nan => decide

theorem toWellFormed_serialize :
    (∀ v : JsValue, ∀ indent, Spaces indent →
      toWellFormed (serializeJSONProperty indent v) = serializeJSONProperty indent v) ∧
    (∀ xs : List JsValue, ∀ indent, Spaces indent →
      toWellFormed (serializeElements indent xs) = serializeElements indent xs) ∧
    (∀ ps : List (JsString × JsValue), ∀ indent, Spaces indent →
      toWellFormed (serializeMembers indent ps) = serializeMembers indent ps) := by
  have hsp : ∀ indent, Spaces indent → toWellFormed indent = indent := fun indent h =>
    toWellFormed_plain indent fun c hc => by rw [h c hc]; norm_num
  apply JsValue.induct3
  · intro indent _; rw [serializeJSONProperty]; exact toWellFormed_plain _ (by decide)
  · intro b indent _
    cases b <;> rw [serializeJSONProperty] <;> exact toWellFormed_plain _ (by decide)
  · intro n indent _
    rw [serializeJSONProperty]
    split_ifs
    · exact toWellFormed_plain _ (numberToString_plain n)
    · exact toWellFormed_plain _ (by decide)
  · intro s indent _
    rw [serializeJSONProperty]
    exact toWellFormed_quoteJSONString s
  · intro xs ih indent hind
    cases xs with
    | nil => exact toWellFormed_plain _ (by simp [serializeJSONProperty])
    | cons x xs =>
      have hind2 := hind.append spaces_gap
      rw [serializeJSONProperty]
      iterate 5 apply toWellFormed_append_fixed
      · exact toWellFormed_plain _ (by simp)
      · exact hsp _ hind2
      · exact ih _ hind2
      · exact toWellFormed_plain _ (by simp)
      · exact hsp _ hind
      · exact toWellFormed_plain _ (by simp)
  · intro ps ih indent hind
    cases ps with
    | nil => exact toWellFormed_plain _ (by simp [serializeJSONProperty])
    | cons p ps =>
      have hind2 := hind.append spaces_gap
      rw [serializeJSONProperty]
      iterate 5 apply toWellFormed_append_fixed
      · exact toWellFormed_plain _ (by simp)
      · exact hsp _ hind2
      · exact ih _ hind2
      · exact toWellFormed_plain _ (by simp)
      · exact hsp _ hind
      · exact toWellFormed_plain _ (by simp)
  · intro indent _; rfl
  · intro x xs ihx ihxs indent hind
    cases xs with
    | nil => rw [serializeElements]; exact ihx indent hind
    | cons y ys =>
      rw [serializeElements]
      iterate 3 apply toWellFormed_append_fixed
      · exact ihx indent hind
      · exact toWellFormed_plain _ (by simp)
      · exact hsp _ hind
      · exact ihxs indent hind
  · intro indent _; rfl
  · intro k v ps ihv ihps indent hind
    cases ps with
    | nil =>
      rw [serializeMembers]
      iterate 2 apply toWellFormed_append_fixed
      · exact toWellFormed_quoteJSONString k
      · exact toWellFormed_plain _ (by simp)
      · exact ihv indent hind
    | cons q qs =>
      rw [serializeMembers]
      iterate 5 apply toWellFormed_append_fixed
      · exact toWellFormed_quoteJSONString k
      · exact toWellFormed_plain _ (by simp)
      · exact ihv indent hind
      · exact toWellFormed_plain _ (by simp)
      · exact hsp _ hind
      · exact ihps indent hind

/-! ## The handlers, case by case -/

theorem saveData_writable (rt : Runtime) (d : JsValue) (fs : FileSystem)
    (hs : fs.searchable = true) (hw : fs.writable = true)
    (hd : nestingDepth d ≤ rt.maxDepth) :
    saveData rt (some d) fs = .ok ⟨[⟨200, .object [(utf16 "success", .bool true)]⟩],
      { fs with file := some (serializeJSONProperty [] d) }⟩ := by
  unfold saveData JSON_stringify fs_writeFile
  simp only [hd, hs, hw, if_true, tryCatch, bind, Except.bind, pure, Except.pure, Bool.and_self]
  rw [toWellFormed_serialize.1 d [] (by intro c hc; cases hc)]

theorem saveData_failed (rt : Runtime) (body : Option JsValue) (fs : FileSystem)
    (h : fs.searchable = false ∨ fs.writable = false ∨ body = none ∨
      ∃ d, body = some d ∧ rt.maxDepth < nestingDepth d) :
    saveData rt body fs = .ok ⟨[⟨500, .object [(utf16 "error",
      .string (utf16 "Failed to save data"))]⟩], fs⟩ := by
  unfold saveData JSON_stringify fs_writeFile
  rcases body with _ | d
  · rfl
  · by_cases hd : nestingDepth d ≤ rt.maxDepth
    · have hsw : (fs.searchable && fs.writable) = false := by
        rcases h with h | h | h | ⟨e, he, hlt⟩
        · simp [h]
        · simp [h]
        · cases h
        · injection he with he
          subst he
          omega
      simp only [hd, if_true, tryCatch, bind, Except.bind, pure, Except.pure, hsw]
      rfl
    · simp only [hd, if_false, tryCatch, bind, Except.bind, pure, Except.pure]

theorem saveData_cases (rt : Runtime) (body : Option JsValue) (fs : FileSystem) :
    (∃ d, body = some d ∧ fs.searchable = true ∧ fs.writable = true ∧
      nestingDepth d ≤ rt.maxDepth ∧
      saveData rt body fs = .ok ⟨[⟨200, .object [(utf16 "success", .bool true)]⟩],
        { fs with file := some (serializeJSONProperty [] d) }⟩) ∨
    saveData rt body fs = .ok ⟨[⟨500, .object [(utf16 "error",
      .string (utf16 "Failed to save data"))]⟩], fs⟩ := by
  rcases body with _ | d
  · exact Or.inr (saveData_failed rt none fs (Or.inr (Or.inr (Or.inl rfl))))
  · by_cases hs : fs.searchable = true
    · by_cases hw : fs.writable = true
      · by_cases hd : nestingDepth d ≤ rt.maxDepth
        · exact Or.inl ⟨d, rfl, hs, hw, hd, saveData_writable rt d fs hs hw hd⟩
        · exact Or.inr (saveData_failed rt _ fs
            (Or.inr (Or.inr (Or.inr ⟨d, rfl, not_le.1 hd⟩))))
      · exact Or.inr (saveData_failed rt _ fs (Or.inr (Or.inl (Bool.eq_false_iff.2 hw))))
    · exact Or.inr (saveData_failed rt _ fs (Or.inl (Bool.eq_false_iff.2 hs)))

theorem getData_parsed (rt : Runtime) (fs : FileSystem) (c : JsString) (v : JsValue)
    (hf : fs.file = some c) (hs : fs.searchable = true) (hr : fs.readable = true)
    (hp : JSON_parse c = some v) (hd : nestingDepth v ≤ rt.maxDepth) :
    getData rt fs = .ok ⟨[⟨200, v⟩], fs⟩ := by
  unfold getData fs_readFile res_json
  simp only [hf, hs, hr, if_true]
  simp [tryCatch, hp, hd, bind, Except.bind, pure, Except.pure]

theorem getData_failed (rt : Runtime) (fs : FileSystem)
    (h : fs.file = none ∨ fs.searchable = false ∨ fs.readable = false ∨
      (∃ c, fs.file = some c ∧ JSON_parse c = none) ∨
      ∃ c v, fs.file = some c ∧ JSON_parse c = some v ∧ rt.maxDepth < nestingDepth v) :
    getData rt fs = .ok ⟨[⟨500, .object [(utf16 "error",
      .string (utf16 "Failed to read data"))]⟩], fs⟩ := by
  unfold getData fs_readFile res_json
  cases hs : fs.searchable
  · simp [tryCatch, bind, Except.bind, pure, Except.pure]
  · rcases hf : fs.file with _ | c
    · simp [tryCatch, bind, Except.bind, pure, Except.pure]
    · cases hr : fs.readable
      · simp [tryCatch, bind, Except.bind, pure, Except.pure]
      · rcases hp : JSON_parse c with _ | v
        · simp [tryCatch, bind, Except.bind, pure, Except.pure, hp]
        · have hd : ¬ nestingDepth v ≤ rt.maxDepth := by
            rcases h with h | h | h | ⟨c1, h1, h2⟩ | ⟨c1, v1, h1, h2, h3⟩
            · rw [hf] at h; cases h
            · rw [hs] at h; cases h
            · rw [hr] at h; cases h
            · rw [hf] at h1
              injection h1 with h1
              rw [← h1, hp] at h2
              cases h2
            · rw [hf] at h1
              injection h1 with h1
              rw [← h1, hp] at h2
              injection h2 with h2
              rw [h2]
              omega
          simp [tryCatch, bind, Except.bind, pure, Except.pure, hp, hd]

theorem getData_cases (rt : Runtime) (fs : FileSystem) :
    (∃ c v, fs.file = some c ∧ fs.searchable = true ∧ fs.readable = true ∧
      JSON_parse c = some v ∧ nestingDepth v ≤ rt.maxDepth ∧
      getData rt fs = .ok ⟨[⟨200, v⟩], fs⟩) ∨
    ((fs.file = none ∨ fs.searchable = false ∨ fs.readable = false ∨
      (∃ c, fs.file = some c ∧ JSON_parse c = none) ∨
      ∃ c v, fs.file = some c ∧ JSON_parse c = some v ∧ rt.maxDepth < nestingDepth v) ∧
    getData rt fs = .ok ⟨[⟨500, .object [(utf16 "error",
      .string (utf16 "Failed to read data"))]⟩], fs⟩) := by
  have key := getData_failed rt fs
  rcases hf : fs.file with _ | c
  · exact Or.inr ⟨Or.inl rfl, key (Or.inl hf)⟩
  · by_cases hs : fs.searchable = true
    · by_cases hr : fs.readable = true
      · rcases hp : JSON_parse c with _ | v
        · exact Or.inr ⟨Or.inr (Or.inr (Or.inr (Or.inl ⟨c, rfl, hp⟩))),
            key (Or.inr (Or.inr (Or.inr (Or.inl ⟨c, hf, hp⟩))))⟩
        · by_cases hd : nestingDepth v ≤ rt.maxDepth
          · exact Or.inl ⟨c, v, rfl, hs, hr, hp, hd, getData_parsed rt fs c v hf hs hr hp hd⟩
          · exact Or.inr ⟨Or.inr (Or.inr (Or.inr (Or.inr ⟨c, v, rfl, hp, not_le.1 hd⟩))),
              key (Or.inr (Or.inr (Or.inr (Or.inr ⟨c, v, hf, hp, not_le.1 hd⟩))))⟩
      · exact Or.inr ⟨Or.inr (Or.inr (Or.inl (Bool.eq_false_iff.2 hr))),
          key (Or.inr (Or.inr (Or.inl (Bool.eq_false_iff.2 hr))))⟩
    · exact Or.inr ⟨Or.inr (Or.inl (Bool.eq_false_iff.2 hs)),
        key (Or.inr (Or.inl (Bool.eq_false_iff.2 hs)))⟩

theorem nestingDepth_readBack :
    (∀ v : JsValue, nestingDepth v.readBack = nestingDepth v) ∧
    (∀ xs : List JsValue, nestingDepthList (readBackList xs) = nestingDepthList xs) ∧
    (∀ ps : List (JsString × JsValue),
      nestingDepthProps (readBackProps ps) = nestingDepthProps ps) := by
  apply JsValue.induct3
  · rfl
  · intro b; rfl
  · intro n; cases n <;> rfl
  · intro s; rfl
  · intro xs ih; rw [JsValue.readBack, nestingDepth, nestingDepth, ih]
  · intro ps ih; rw [JsValue.readBack, nestingDepth, nestingDepth, ih]
  · rfl
  · intro x xs ihx ihxs; rw [readBackList, nestingDepthList, nestingDepthList, ihx, ihxs]
  · rfl
  · intro k v ps ihv ihps
    rw [readBackProps, nestingDepthProps, nestingDepthProps]
    simp only [ihv, ihps]

theorem le_roundHalfEven (r : ℚ) : ⌊r⌋₊ ≤ roundHalfEven r := by
  unfold roundHalfEven
  simp only []
  split_ifs <;> omega

theorem roundToDouble_overflow (q : ℚ) (h : (2 : ℚ) ^ (1024 : ℕ) ≤ q) :
    roundToDouble q = .posInf := by
  have hq : 0 < q := lt_of_lt_of_le (by positivity) h
  have hlog : (1024 : ℤ) ≤ Int.log 2 q := by
    rw [← Int.zpow_le_iff_le_log (by norm_num) hq]
    exact_mod_cast h
  have he : binaryExponent q = Int.log 2 q - 52 := by
    unfold binaryExponent
    rw [max_eq_left]
    omega
  have hr : (2 : ℚ) ^ (52 : ℕ) ≤ q / 2 ^ binaryExponent q := by
    rw [le_div_iff₀ (by positivity), he, ← zpow_natCast, ← zpow_add₀ (by norm_num)]
    have := Int.zpow_log_le_self (b := 2) (r := q) (by norm_num) hq
    simpa using this
  have hm : 2 ^ 52 ≤ roundHalfEven (q / 2 ^ binaryExponent q) := by
    refine le_trans ?_ (le_roundHalfEven _)
    apply Nat.le_floor
    exact_mod_cast hr
  unfold roundToDouble
  simp only []
  rw [if_pos]
  calc (2 : ℚ) ^ (1024 : ℕ) ≤ 2 ^ Int.log 2 q := by
        rw [← zpow_natCast]
        exact zpow_le_zpow_right₀ (by norm_num) (by exact_mod_cast hlog)
    _ = 2 ^ (52 : ℕ) * 2 ^ binaryExponent q := by
        rw [he, ← zpow_natCast, ← zpow_add₀ (by norm_num)]
        norm_num
    _ ≤ roundHalfEven (q / 2 ^ binaryExponent q) * 2 ^ binaryExponent q := by
        apply mul_le_mul_of_nonneg_right _ (by positivity)
        exact_mod_cast hm

theorem lexNumber_1e999 : lexNumber (utf16 "1e999\x7d") = some ((1 : ℚ) * 10 ^ (999 : ℤ), [125]) := by
  have : lexNumber (utf16 "1e999\x7d") = some (((ofDecimalDigits ([1] ++ []) : ℕ) : ℚ) * 10 ^ (((ofDecimalDigits [9, 9, 9] : ℕ) : ℤ) - (([] : List ℕ).length : ℤ)), [125]) := by
    rfl
  rw [this]
  norm_num [ofDecimalDigits, Nat.ofDigits]

theorem parseNumber_1e999 : parseNumber (utf16 "1e999\x7d") = some (.posInf, [125]) := by
  have h : utf16 "1e999\x7d" = 49 :: utf16 "e999\x7d" := by rfl
  have := lexNumber_1e999
  rw [h] at this ⊢
  unfold parseNumber
  simp only [this]
  rw [roundToDouble_overflow]
  rw [one_mul, show ((999 : ℤ)) = ((999 : ℕ) : ℤ) by norm_num, zpow_natCast]
  calc (2 : ℚ) ^ (1024 : ℕ) = 8 ^ (341 : ℕ) * 2 := by
        rw [show (8 : ℚ) = 2 ^ (3 : ℕ) by norm_num, ← pow_mul, ← pow_succ]
    _ ≤ 10 ^ (341 : ℕ) * 10 := by
        apply mul_le_mul _ (by norm_num) (by norm_num) (by positivity)
        exact pow_le_pow_left₀ (by norm_num) (by norm_num) _
    _ = 10 ^ (342 : ℕ) := by rw [← pow_succ]
    _ ≤ 10 ^ (999 : ℕ) := pow_le_pow_right₀ (by norm_num) (by norm_num)

set_option maxRecDepth 4000 in
theorem express_json_1e999 : express_json (utf16 "\x7b\"a\":1e999\x7d")
    = some (.object [(utf16 "a", .number .posInf)]) := by
  have h : express_json (utf16 "\x7b\"a\":1e999\x7d")
      = (parseNumber (utf16 "1e999\x7d")).map fun nr =>
        JsValue.object [(utf16 "a", .number nr.1)] := by
    rfl
  rw [h, parseNumber_1e999]
  rfl

/-! ## The default document -/

theorem keyBefore_plain (k1 k2 : JsString) (h : k1 ≠ k2) (h1 : arrayIndex? k1 = none)
    (h2 : arrayIndex? k2 = none) : keyBefore k1 k2 := by
  unfold keyBefore
  rw [h1, h2]
  exact ⟨h, trivial⟩

theorem ingredient_valid (name quantity : String) : (ingredient name quantity).Valid := by
  unfold ingredient
  simp only [JsValue.Valid, validProps, List.map_cons, List.map_nil, List.pairwise_cons,
    List.mem_singleton, forall_eq, List.not_mem_nil, false_implies, implies_true,
    List.Pairwise.nil, and_true]
  exact keyBefore_plain _ _ (by decide) (by decide) (by decide)

theorem meal_valid (name steps : String) (ingredients : List JsValue)
    (h : validList ingredients) : (meal name steps ingredients).Valid := by
  unfold meal
  simp only [JsValue.Valid, validProps, List.map_cons, List.map_nil, List.pairwise_cons,
    List.mem_cons, List.mem_singleton, forall_eq_or_imp, forall_eq, List.not_mem_nil,
    false_implies, implies_true, List.Pairwise.nil, and_true, h]
  exact ⟨⟨keyBefore_plain _ _ (by decide) (by decide) (by decide),
    keyBefore_plain _ _ (by decide) (by decide) (by decide)⟩,
    keyBefore_plain _ _ (by decide) (by decide) (by decide)⟩

theorem ingredient_numbersExact (name quantity : String) :
    (ingredient name quantity).NumbersExact := by
  simp [ingredient, JsValue.NumbersExact, numbersExactProps]

theorem meal_numbersExact (name steps : String) (ingredients : List JsValue)
    (h : numbersExactList ingredients) : (meal name steps ingredients).NumbersExact := by
  simp [meal, JsValue.NumbersExact, numbersExactProps, h]

theorem DEFAULT_MEALS_valid : validList DEFAULT_MEALS := by
  have hm : ∀ name steps ingredients, (meal name steps ingredients).Valid ↔ validList ingredients :=
    fun name steps ingredients => ⟨fun h => by
      unfold meal at h
      simp only [JsValue.Valid, validProps] at h
      exact h.2.2.2.1, meal_valid name steps ingredients⟩
  have hi : ∀ name quantity, (ingredient name quantity).Valid ↔ True :=
    fun name quantity => iff_true_intro (ingredient_valid name quantity)
  unfold DEFAULT_MEALS
  simp only [validList, hm, hi, and_self]

theorem DEFAULT_MEALS_numbersExact : numbersExactList DEFAULT_MEALS := by
  have hm : ∀ name steps ingredients,
      (meal name steps ingredients).NumbersExact ↔ numbersExactList ingredients :=
    fun name steps ingredients => ⟨fun h => by
      unfold meal at h
      simp only [JsValue.NumbersExact, numbersExactProps] at h
      exact h.2.2.1, meal_numbersExact name steps ingredients⟩
  have hi : ∀ name quantity, (ingredient name quantity).NumbersExact ↔ True :=
    fun name quantity => iff_true_intro (ingredient_numbersExact name quantity)
  unfold DEFAULT_MEALS
  simp only [numbersExactList, hm, hi, and_self]

theorem defaultData_valid : defaultData.Valid := by
  unfold defaultData
  simp only [JsValue.Valid, validProps, List.map_cons, List.map_nil, List.pairwise_cons,
    List.mem_singleton, forall_eq, List.not_mem_nil, false_implies, implies_true,
    List.Pairwise.nil, and_true, DEFAULT_MEALS_valid]
  exact keyBefore_plain _ _ (by decide) (by decide) (by decide)

theorem defaultData_numbersExact : defaultData.NumbersExact := by
  simp [defaultData, JsValue.NumbersExact, numbersExactProps, DEFAULT_MEALS_numbersExact]

theorem nestingDepth_defaultData : nestingDepth defaultData = 5 := by
  rfl

theorem defaultData_fits (rt : Runtime) : nestingDepth defaultData ≤ rt.maxDepth := by
  rw [nestingDepth_defaultData]
  exact rt.room

/-! ## The claims -/

theorem statuses_ne (v w : JsValue) (fs fs1 : FileSystem) (a b : ℕ) (h : a ≠ b) :
    (Except.ok ⟨[⟨a, v⟩], fs⟩ : Except JsError Outcome) ≠ .ok ⟨[⟨b, w⟩], fs1⟩ := by
  intro heq
  injection heq with heq
  injection heq with hs _
  injection hs with hr _
  injection hr with hst _
  exact h hst

/-- C1, as stated, fails: the accepted body `{"a":1e999}` is the object whose
property `a` is `Infinity`; the save succeeds and writes `null` for it, and the
following `GET /api/data` answers 200 with `{a: null}`, which is not the body. -/
theorem save_then_get_loses_infinity :
    express_json (utf16 "\x7b\"a\":1e999\x7d") = some (.object [(utf16 "a", .number .posInf)]) ∧
    saveData exampleRuntime (some (.object [(utf16 "a", .number .posInf)]))
        ⟨none, true, true, true⟩
      = .ok ⟨[⟨200, .object [(utf16 "success", .bool true)]⟩],
          ⟨some (utf16 "\x7b\n  \"a\": null\n\x7d"), true, true, true⟩⟩ ∧
    getData exampleRuntime ⟨some (utf16 "\x7b\n  \"a\": null\n\x7d"), true, true, true⟩
      = .ok ⟨[⟨200, .object [(utf16 "a", .null)]⟩],
          ⟨some (utf16 "\x7b\n  \"a\": null\n\x7d"), true, true, true⟩⟩ ∧
    JsValue.object [(utf16 "a", .null)] ≠ .object [(utf16 "a", .number .posInf)] := by
  refine ⟨express_json_1e999, by rfl, by rfl, ?_⟩
  intro h
  injection h with h
  injection h with h _
  injection h with _ h
  cases h

/-- C1, amended: for every body `d` that `express.json()` accepts and whose
numbers are all finite and not negative zero, and every prior state of a
readable data file, a `POST /api/data` with body `d` that answers 200 followed
by `GET /api/data` answers 200 with a body equal to `d`, the order of the
elements of every array and of the properties of every object included. -/
theorem save_then_get_round_trip (rt : Runtime) (raw : JsString) (d : JsValue)
    (fs : FileSystem) (o : Outcome)
    (hbody : express_json raw = some d) (hnum : d.NumbersExact) (hread : fs.readable = true)
    (hsave : saveData rt (some d) fs = .ok o) (hok : o.sent.map Response.status = [200]) :
    getData rt o.fs = .ok ⟨[⟨200, d⟩], o.fs⟩ := by
  rcases saveData_cases rt (some d) fs with ⟨e, he, hs, hw, hd, h⟩ | h
  · injection he with he
    subst he
    rw [h] at hsave
    injection hsave with hsave
    rw [← hsave]
    refine getData_parsed rt
      ⟨some (serializeJSONProperty [] d), fs.searchable, fs.readable, fs.writable⟩ _ d rfl
      hs hread ?_ hd
    rw [JSON_parse_serialize d (express_json_valid raw d hbody),
      readBack_of_numbersExact.1 d hnum]
  · rw [h] at hsave
    injection hsave with hsave
    rw [← hsave] at hok
    simp at hok

set_option maxRecDepth 4000 in
/-- The round trip of C1 on scenario 4 of the specification, over an old file. -/
theorem save_then_get_round_trip_witness :
    getData exampleRuntime ⟨some (utf16 "\x7b\n  \"meals\": [],\n  \"weekPlan\": \x7b\n    \"mon-dinner\": \"Beef Stir-Fry\"\n  \x7d\n\x7d"), true, true, true⟩
      = .ok ⟨[⟨200, .object [(utf16 "meals", .array []),
          (utf16 "weekPlan", .object [(utf16 "mon-dinner", .string (utf16 "Beef Stir-Fry"))])]⟩],
        ⟨some (utf16 "\x7b\n  \"meals\": [],\n  \"weekPlan\": \x7b\n    \"mon-dinner\": \"Beef Stir-Fry\"\n  \x7d\n\x7d"), true, true, true⟩⟩ :=
  save_then_get_round_trip exampleRuntime
    (utf16 "\x7b\"meals\": [], \"weekPlan\": \x7b\"mon-dinner\": \"Beef Stir-Fry\"\x7d\x7d")
    (.object [(utf16 "meals", .array []),
      (utf16 "weekPlan", .object [(utf16 "mon-dinner", .string (utf16 "Beef Stir-Fry"))])])
    ⟨some (utf16 "old"), true, true, true⟩
    ⟨[⟨200, .object [(utf16 "success", .bool true)]⟩],
      ⟨some (utf16 "\x7b\n  \"meals\": [],\n  \"weekPlan\": \x7b\n    \"mon-dinner\": \"Beef Stir-Fry\"\n  \x7d\n\x7d"), true, true, true⟩⟩
    (by rfl)
    (by simp [JsValue.NumbersExact, numbersExactProps, numbersExactList])
    rfl (by rfl) rfl

theorem strictEquals_iff (p : Option JsValue) (s : JsString) :
    strictEquals p s = true ↔ p = some (.string s) := by
  unfold strictEquals
  split
  · rename_i t
    simp
  · rename_i h
    constructor
    · intro hf; cases hf
    · intro hp; exact absurd hp (by rw [hp] at h; exact fun _ => h s rfl)

/-- C2: for a request whose body yields the pin `p` (`undefined` when the body
has no `pin`), `POST /api/admin/verify` answers 200 `{success: true}` exactly
when `p` is the configured secret, and 401 `{success: false, error: "Invalid
PIN"}` for every other `p`. -/
theorem verifyPin_iff (env : Option JsString) (body p : Option JsValue) (fs : FileSystem)
    (hp : destructurePin body = .ok p) :
    (verifyPin env body fs = .ok ⟨[⟨200, .object [(utf16 "success", .bool true)]⟩], fs⟩
      ↔ p = some (.string (ADMIN_PIN env))) ∧
    (p ≠ some (.string (ADMIN_PIN env)) →
      verifyPin env body fs = .ok ⟨[⟨401, .object [(utf16 "success", .bool false),
        (utf16 "error", .string (utf16 "Invalid PIN"))]⟩], fs⟩) := by
  have hv : verifyPin env body fs =
      if strictEquals p (ADMIN_PIN env) = true then
        .ok ⟨[⟨200, .object [(utf16 "success", .bool true)]⟩], fs⟩
      else .ok ⟨[⟨401, .object [(utf16 "success", .bool false),
        (utf16 "error", .string (utf16 "Invalid PIN"))]⟩], fs⟩ := by
    unfold verifyPin
    rw [hp]
    simp only [tryCatch, bind, Except.bind, pure, Except.pure]
    split_ifs <;> rfl
  rw [hv]
  constructor
  · constructor
    · intro h
      by_contra hne
      rw [if_neg (by rwa [strictEquals_iff])] at h
      exact statuses_ne _ _ _ _ 401 200 (by decide) h
    · intro h
      rw [if_pos ((strictEquals_iff _ _).2 h)]
  · intro hne
    rw [if_neg (by rwa [strictEquals_iff])]

/-- Scenario 3 of the specification: the pin `"0000"` against the default
secret. -/
theorem verifyPin_iff_witness :
    verifyPin none (some (.object [(utf16 "pin", .string (utf16 "0000"))])) ⟨none, true, true, true⟩
      = .ok ⟨[⟨401, .object [(utf16 "success", .bool false),
        (utf16 "error", .string (utf16 "Invalid PIN"))]⟩], ⟨none, true, true, true⟩⟩ :=
  (verifyPin_iff none (some (.object [(utf16 "pin", .string (utf16 "0000"))]))
    (some (.string (utf16 "0000"))) ⟨none, true, true, true⟩ (by rfl)).2 (by
      intro h
      injection h with h
      injection h with h
      exact absurd h (by decide))

theorem initDataFile_missing (rt : Runtime) (fs : FileSystem) (hf : fs.file = none)
    (hs : fs.searchable = true) (hw : fs.writable = true) :
    initDataFile rt fs = .ok { fs with file := some (serializeJSONProperty [] defaultData) } := by
  unfold initDataFile fs_access JSON_stringify fs_writeFile
  simp only [hf, hs, hw, defaultData_fits rt, if_true, tryCatch, bind, Except.bind,
    Bool.and_self]
  rw [toWellFormed_serialize.1 defaultData [] (by intro c hc; cases hc)]

theorem initDataFile_existing (rt : Runtime) (fs : FileSystem) (c : JsString)
    (hf : fs.file = some c) (hs : fs.searchable = true) : initDataFile rt fs = .ok fs := by
  unfold initDataFile fs_access
  simp only [hf, hs, if_true, tryCatch, bind, Except.bind, pure, Except.pure]

theorem initDataFile_blocked (rt : Runtime) (fs : FileSystem) (hs : fs.searchable = false) :
    initDataFile rt fs = .error .EACCES := by
  unfold initDataFile fs_access JSON_stringify fs_writeFile
  simp [hs, defaultData_fits rt, tryCatch, bind, Except.bind]

theorem initDataFile_read_only (rt : Runtime) (fs : FileSystem) (hf : fs.file = none)
    (hs : fs.searchable = true) (hw : fs.writable = false) :
    initDataFile rt fs = .error .EACCES := by
  unfold initDataFile fs_access JSON_stringify fs_writeFile
  simp [hf, hs, hw, defaultData_fits rt, tryCatch, bind, Except.bind]

/-- C3: from a state without data file in which the `data` directory resolves
and the file can be written and read, `initDataFile` returns and the following `GET /api/data` answers 200 with
the document whose `meals` is `DEFAULT_MEALS`, a sequence of 20 meals in their
declared order, and whose `weekPlan` is the empty object. -/
theorem init_then_get_default (rt : Runtime) (fs : FileSystem) (hf : fs.file = none)
    (hs : fs.searchable = true) (hw : fs.writable = true) (hr : fs.readable = true) :
    ∃ fs1, initDataFile rt fs = .ok fs1 ∧
      getData rt fs1 = .ok ⟨[⟨200, .object [(utf16 "meals", .array DEFAULT_MEALS),
        (utf16 "weekPlan", .object [])]⟩], fs1⟩ ∧
      DEFAULT_MEALS.length = 20 := by
  refine ⟨_, initDataFile_missing rt fs hf hs hw, ?_, by rfl⟩
  refine getData_parsed rt _ (serializeJSONProperty [] defaultData) _ rfl hs hr ?_
    (defaultData_fits rt)
  rw [JSON_parse_serialize defaultData defaultData_valid,
    readBack_of_numbersExact.1 defaultData defaultData_numbersExact]
  rfl

/-- The fresh start of scenario 1 of the specification. -/
theorem init_then_get_default_witness :
    ∃ fs1, initDataFile exampleRuntime ⟨none, true, true, true⟩ = .ok fs1 ∧
      getData exampleRuntime fs1 = .ok ⟨[⟨200, .object [(utf16 "meals", .array DEFAULT_MEALS),
        (utf16 "weekPlan", .object [])]⟩], fs1⟩ ∧
      DEFAULT_MEALS.length = 20 :=
  init_then_get_default exampleRuntime ⟨none, true, true, true⟩ rfl rfl rfl rfl

theorem afterInit_existing (rt : Runtime) (fs : FileSystem) (c : JsString)
    (hf : fs.file = some c) : afterInit rt fs = fs := by
  unfold afterInit
  by_cases hs : fs.searchable = true
  · rw [initDataFile_existing rt fs c hf hs]
  · rw [initDataFile_blocked rt fs (Bool.eq_false_iff.2 hs)]

/-- C4: a call of `initDataFile` in a state whose data file exists leaves the
state, the content of the file included, as it is, whatever the content: the
call returns when the path of the file resolves, and when `fs.access` rejects on
the existing file the write of the `catch` block rejects too and nothing is
written. From any state, the state after two calls is the state after one. -/
theorem initDataFile_idempotent (rt : Runtime) (fs : FileSystem) (c : JsString)
    (hf : fs.file = some c) :
    (afterInit rt fs).file = some c ∧ afterInit rt fs = fs ∧
    (fs.searchable = true → initDataFile rt fs = .ok fs) ∧
    (fs.searchable = false → initDataFile rt fs = .error .EACCES) ∧
    ∀ fs0 : FileSystem, afterInit rt (afterInit rt fs0) = afterInit rt fs0 := by
  have h1 := afterInit_existing rt fs c hf
  refine ⟨by rw [h1, hf], h1, initDataFile_existing rt fs c hf, initDataFile_blocked rt fs, ?_⟩
  intro fs0
  rcases h0 : fs0.file with _ | c0
  · by_cases hs : fs0.searchable = true
    · by_cases hw : fs0.writable = true
      · have h2 : afterInit rt fs0
            = { fs0 with file := some (serializeJSONProperty [] defaultData) } := by
          unfold afterInit
          rw [initDataFile_missing rt fs0 h0 hs hw]
        rw [h2]
        exact afterInit_existing rt _ _ rfl
      · have h2 : afterInit rt fs0 = fs0 := by
          unfold afterInit
          rw [initDataFile_read_only rt fs0 h0 hs (Bool.eq_false_iff.2 hw)]
        rw [h2, h2]
    · have h2 : afterInit rt fs0 = fs0 := by
        unfold afterInit
        rw [initDataFile_blocked rt fs0 (Bool.eq_false_iff.2 hs)]
      rw [h2, h2]
  · have h2 := afterInit_existing rt fs0 c0 h0
    rw [h2, h2]

/-- A file that is not JSON, in a directory that cannot be searched, is left as it
is. -/
theorem initDataFile_idempotent_witness :
    (afterInit exampleRuntime ⟨some (utf16 "not json"), false, true, true⟩).file
      = some (utf16 "not json") :=
  (initDataFile_idempotent exampleRuntime ⟨some (utf16 "not json"), false, true, true⟩
    (utf16 "not json") rfl).1

theorem nestedArrays_valid (n : ℕ) : (nestedArrays n).Valid := by
  induction n with
  | zero => simp [nestedArrays, JsValue.Valid, validList]
  | succ n ih => simp [nestedArrays, JsValue.Valid, validList, ih]

theorem nestedArrays_numbersExact (n : ℕ) : (nestedArrays n).NumbersExact := by
  induction n with
  | zero => simp [nestedArrays, JsValue.NumbersExact, numbersExactList]
  | succ n ih => simp [nestedArrays, JsValue.NumbersExact, numbersExactList, ih]

theorem nestingDepth_nestedArrays (n : ℕ) : nestingDepth (nestedArrays n) = n + 1 := by
  induction n with
  | zero => simp [nestedArrays, nestingDepth, nestingDepthList]
  | succ n ih => simp [nestedArrays, nestingDepth, nestingDepthList, ih]

theorem JSON_parse_nestedArrays (n : ℕ) :
    JSON_parse (serializeJSONProperty [] (nestedArrays n)) = some (nestedArrays n) := by
  rw [JSON_parse_serialize _ (nestedArrays_valid n),
    readBack_of_numbersExact.1 _ (nestedArrays_numbersExact n)]

/-- C5, as stated, fails: a readable data file that holds 5000 arrays nested in
one another is well-formed JSON, `JSON.parse` returns its value, and
`res.json`, which is inside the `try`, throws a `RangeError` on a stack that is
exhausted at 5000 levels; the `catch` block answers 500. -/
theorem getData_deep_file_fails :
    JSON_parse (serializeJSONProperty [] (nestedArrays 4999)) = some (nestedArrays 4999) ∧
    exampleRuntime.maxDepth < nestingDepth (nestedArrays 4999) ∧
    getData exampleRuntime
        ⟨some (serializeJSONProperty [] (nestedArrays 4999)), true, true, true⟩
      = .ok ⟨[⟨500, .object [(utf16 "error", .string (utf16 "Failed to read data"))]⟩],
          ⟨some (serializeJSONProperty [] (nestedArrays 4999)), true, true, true⟩⟩ := by
  have hd : exampleRuntime.maxDepth < nestingDepth (nestedArrays 4999) := by
    rw [nestingDepth_nestedArrays]
    decide
  exact ⟨JSON_parse_nestedArrays 4999, hd, getData_failed exampleRuntime _
    (Or.inr (Or.inr (Or.inr (Or.inr ⟨_, _, rfl, JSON_parse_nestedArrays 4999, hd⟩))))⟩

/-- C5, amended: `GET /api/data` answers 500 with the body `{error: "Failed to
read data"}` exactly when the data file is missing, cannot be read, does not
parse as JSON, or parses to a value nested too deeply for `res.json` to
serialise; otherwise it answers 200 with the parsed content of the file. The 500
body is this constant in every case. -/
theorem getData_response (rt : Runtime) (fs : FileSystem) :
    (getData rt fs = .ok ⟨[⟨500, .object [(utf16 "error",
        .string (utf16 "Failed to read data"))]⟩], fs⟩
      ↔ (fs.file = none ∨ fs.searchable = false ∨ fs.readable = false ∨
        (∃ c, fs.file = some c ∧ JSON_parse c = none) ∨
        ∃ c v, fs.file = some c ∧ JSON_parse c = some v ∧ rt.maxDepth < nestingDepth v)) ∧
    (∀ c v, fs.file = some c → fs.searchable = true → fs.readable = true →
      JSON_parse c = some v → nestingDepth v ≤ rt.maxDepth →
      getData rt fs = .ok ⟨[⟨200, v⟩], fs⟩) := by
  refine ⟨⟨?_, getData_failed rt fs⟩, fun c v hf hs hr hp hd =>
    getData_parsed rt fs c v hf hs hr hp hd⟩
  intro h
  rcases getData_cases rt fs with ⟨c, v, _, _, _, _, _, h200⟩ | ⟨hc, _⟩
  · rw [h200] at h
    exact absurd h (statuses_ne _ _ _ _ 200 500 (by decide))
  · exact hc

/-- C6: a `POST /api/data` that answers 200 leaves as file content the text
`JSON.stringify(body, null, 2)`, whatever the file held before, so two saves of
one body over different files leave the same content; and every body that
`JSON.stringify` can serialise, whatever its shape, is saved with 200 whenever
the file can be written. -/
theorem saveData_replaces_file (rt : Runtime) (d : JsValue) (fs1 fs2 : FileSystem)
    (o1 o2 : Outcome)
    (h1 : saveData rt (some d) fs1 = .ok o1) (h2 : saveData rt (some d) fs2 = .ok o2)
    (hs1 : o1.sent.map Response.status = [200]) (hs2 : o2.sent.map Response.status = [200]) :
    o1.fs.file = some (serializeJSONProperty [] d) ∧
    o2.fs.file = some (serializeJSONProperty [] d) ∧
    JSON_stringify rt (some d) = .ok (some (serializeJSONProperty [] d)) ∧
    ∀ (b : JsValue) (fs : FileSystem), fs.searchable = true → fs.writable = true →
      nestingDepth b ≤ rt.maxDepth →
      saveData rt (some b) fs = .ok ⟨[⟨200, .object [(utf16 "success", .bool true)]⟩],
        { fs with file := some (serializeJSONProperty [] b) }⟩ := by
  have key : ∀ (fs : FileSystem) (o : Outcome), saveData rt (some d) fs = .ok o →
      o.sent.map Response.status = [200] →
      o.fs.file = some (serializeJSONProperty [] d) ∧ nestingDepth d ≤ rt.maxDepth := by
    intro fs o h hs
    rcases saveData_cases rt (some d) fs with ⟨e, he, _, _, hd, h200⟩ | h500
    · injection he with he
      subst he
      rw [h200] at h
      injection h with h
      rw [← h]
      exact ⟨rfl, hd⟩
    · rw [h500] at h
      injection h with h
      rw [← h] at hs
      simp at hs
  refine ⟨(key fs1 o1 h1 hs1).1, (key fs2 o2 h2 hs2).1, ?_,
    fun b fs hs hw hd => saveData_writable rt b fs hs hw hd⟩
  unfold JSON_stringify
  simp only [(key fs1 o1 h1 hs1).2, if_true]

set_option maxRecDepth 4000 in
/-- The body `{"note": true}`, which `express.json()` accepts and which has no
`meals` and no `weekPlan`, saved over a missing file and over an old file that
cannot be read. -/
theorem saveData_replaces_file_witness :
    express_json (utf16 "\x7b\"note\": true\x7d") = some (.object [(utf16 "note", .bool true)]) ∧
    (⟨some (utf16 "\x7b\n  \"note\": true\n\x7d"), true, true, true⟩ : FileSystem).file
      = some (serializeJSONProperty [] (.object [(utf16 "note", .bool true)])) :=
  ⟨by rfl,
    (saveData_replaces_file exampleRuntime (.object [(utf16 "note", .bool true)])
      ⟨none, true, true, true⟩ ⟨some (utf16 "old"), true, false, true⟩
      ⟨[⟨200, .object [(utf16 "success", .bool true)]⟩],
        ⟨some (utf16 "\x7b\n  \"note\": true\n\x7d"), true, true, true⟩⟩
      ⟨[⟨200, .object [(utf16 "success", .bool true)]⟩],
        ⟨some (utf16 "\x7b\n  \"note\": true\n\x7d"), true, false, true⟩⟩
      (by rfl) (by rfl) rfl rfl).1⟩

theorem getData_fs (rt : Runtime) (fs : FileSystem) :
    ∃ r, getData rt fs = .ok ⟨[r], fs⟩ ∧ (r.status = 200 ∨ r.status = 500) := by
  rcases getData_cases rt fs with ⟨c, v, _, _, _, _, _, h⟩ | ⟨_, h⟩
  · exact ⟨_, h, Or.inl rfl⟩
  · exact ⟨_, h, Or.inr rfl⟩

theorem verifyPin_fs (env : Option JsString) (body : Option JsValue) (fs : FileSystem) :
    ∃ r, verifyPin env body fs = .ok ⟨[r], fs⟩ ∧
      (r.status = 200 ∨ r.status = 401 ∨ r.status = 500) ∧
      (∀ k ∈ r.body.keys, k = utf16 "success" ∨ k = utf16 "error") ∧
      (r.status = 200 → r.body = .object [(utf16 "success", .bool true)]) := by
  unfold verifyPin
  rcases hp : destructurePin body with e | p
  · exact ⟨_, rfl, by simp, by simp [JsValue.keys], by simp⟩
  · simp only [tryCatch, bind, Except.bind, pure, Except.pure]
    split_ifs
    · exact ⟨_, rfl, by simp, by simp [JsValue.keys], by simp⟩
    · exact ⟨_, rfl, by simp, by simp [JsValue.keys], by simp⟩

theorem run_verify (rt : Runtime) (env : Option JsString) (fs : FileSystem)
    (pins : List (Option JsValue)) : run rt env fs (pins.map Request.verify) = fs := by
  induction pins with
  | nil => rfl
  | cons p ps ih =>
    obtain ⟨r, hr, _⟩ := verifyPin_fs env p fs
    rw [List.map_cons, run, handle, hr]
    exact ih

/-- C7: the outcome of `POST /api/data` (its response and the file it leaves)
is the same for every configured secret and after every history of
`POST /api/admin/verify` calls; and a body that `JSON.stringify` can serialise
is saved with 200 on a file that can be written after any such history, a
history without a successful verification included. -/
theorem saveData_ignores_pin (rt : Runtime) (env1 env2 : Option JsString)
    (pins1 pins2 : List (Option JsValue)) (body : Option JsValue) (fs : FileSystem) :
    handle rt env1 (run rt env1 fs (pins1.map Request.verify)) (.save body)
      = handle rt env2 (run rt env2 fs (pins2.map Request.verify)) (.save body) ∧
    ∀ d : JsValue, fs.searchable = true → fs.writable = true →
      nestingDepth d ≤ rt.maxDepth →
      handle rt env1 (run rt env1 fs (pins1.map Request.verify)) (.save (some d))
        = .ok ⟨[⟨200, .object [(utf16 "success", .bool true)]⟩],
          { fs with file := some (serializeJSONProperty [] d) }⟩ := by
  rw [run_verify, run_verify]
  exact ⟨rfl, fun d hs hw hd => saveData_writable rt d fs hs hw hd⟩

/-- After two failed verifications against the default secret, the body `{}` is
saved with 200 over an old file. -/
theorem saveData_ignores_pin_witness :
    handle exampleRuntime none
        (run exampleRuntime none ⟨some (utf16 "old"), true, true, true⟩
          ([none, some (.object [(utf16 "pin", .string (utf16 "0000"))])].map Request.verify))
        (.save (some (.object [])))
      = .ok ⟨[⟨200, .object [(utf16 "success", .bool true)]⟩],
          ⟨some (serializeJSONProperty [] (.object [])), true, true, true⟩⟩ :=
  (saveData_ignores_pin exampleRuntime none none
    [none, some (.object [(utf16 "pin", .string (utf16 "0000"))])] []
    (some (.object [])) ⟨some (utf16 "old"), true, true, true⟩).2 (.object []) rfl rfl
    (by decide)

/-- C8: `POST /api/admin/verify` writes one response and leaves the file system,
the content of the data file included, as it was, for every pin; the body of the
response has no property other than `success` and `error`, and the body of a 200
response is `{success: true}`. -/
theorem verifyPin_no_side_effect (env : Option JsString) (body : Option JsValue)
    (fs : FileSystem) :
    ∃ r, verifyPin env body fs = .ok ⟨[r], fs⟩ ∧
      (∀ k ∈ r.body.keys, k = utf16 "success" ∨ k = utf16 "error") ∧
      (r.status = 200 → r.body = .object [(utf16 "success", .bool true)]) := by
  obtain ⟨r, h1, _, h3, h4⟩ := verifyPin_fs env body fs
  exact ⟨r, h1, h3, h4⟩

/-- C9: each handler returns, without an uncaught error, after writing exactly
one response: `GET /api/data` with status 200 or 500, `POST /api/admin/verify`
with 200, 401 or 500, `POST /api/data` with 200 or 500, for every request body
and every state of the data file. -/
theorem handlers_total (rt : Runtime) (env : Option JsString) (body : Option JsValue)
    (fs : FileSystem) :
    (∃ r, getData rt fs = .ok ⟨[r], fs⟩ ∧ (r.status = 200 ∨ r.status = 500)) ∧
    (∃ r, verifyPin env body fs = .ok ⟨[r], fs⟩ ∧
      (r.status = 200 ∨ r.status = 401 ∨ r.status = 500)) ∧
    (∃ r fs1, saveData rt body fs = .ok ⟨[r], fs1⟩ ∧ (r.status = 200 ∨ r.status = 500)) := by
  refine ⟨getData_fs rt fs, ?_, ?_⟩
  · obtain ⟨r, h1, h2, _⟩ := verifyPin_fs env body fs
    exact ⟨r, h1, h2⟩
  · rcases saveData_cases rt body fs with ⟨d, _, _, _, _, h⟩ | h
    · exact ⟨_, _, h, Or.inl rfl⟩
    · exact ⟨_, _, h, Or.inr rfl⟩

theorem handle_keeps_json (rt : Runtime) (env : Option JsString) (fs : FileSystem)
    (r : Request) (hr : r.FromExpress)
    (h : ∃ c v, fs.file = some c ∧ JSON_parse c = some v) :
    ∃ o, handle rt env fs r = .ok o ∧ ∃ c v, o.fs.file = some c ∧ JSON_parse c = some v := by
  cases r with
  | getData =>
    obtain ⟨x, hx, _⟩ := getData_fs rt fs
    exact ⟨_, hx, h⟩
  | verify body =>
    obtain ⟨x, hx, _⟩ := verifyPin_fs env body fs
    exact ⟨_, hx, h⟩
  | save body =>
    rcases saveData_cases rt body fs with ⟨d, hd, _, _, _, h200⟩ | h500
    · subst hd
      obtain ⟨raw, hraw⟩ : ∃ raw, express_json raw = some d := hr
      exact ⟨_, h200, _, _, rfl, JSON_parse_serialize d (express_json_valid raw d hraw)⟩
    · exact ⟨_, h500, h⟩

theorem run_keeps_json (rt : Runtime) (env : Option JsString) (reqs : List Request) :
    ∀ fs : FileSystem, (∀ r ∈ reqs, r.FromExpress) →
      (∃ c v, fs.file = some c ∧ JSON_parse c = some v) →
      ∃ c v, (run rt env fs reqs).file = some c ∧ JSON_parse c = some v := by
  induction reqs with
  | nil => intro fs _ h; exact h
  | cons r rs ih =>
    intro fs hreqs h
    obtain ⟨o, ho, hinv⟩ := handle_keeps_json rt env fs r (hreqs r (List.mem_cons_self _ _)) h
    rw [run, ho]
    exact ih o.fs (fun x hx => hreqs x (List.mem_cons_of_mem _ hx)) hinv

/-- C10: from a state without data file, after `initDataFile` has returned and
after any finite sequence of requests to the three handlers, the data file
exists and `JSON.parse` accepts its content. -/
theorem data_file_stays_json (rt : Runtime) (env : Option JsString) (fs0 fs1 : FileSystem)
    (reqs : List Request) (h0 : fs0.file = none) (hinit : initDataFile rt fs0 = .ok fs1)
    (hreqs : ∀ r ∈ reqs, r.FromExpress) :
    ∃ c v, (run rt env fs1 reqs).file = some c ∧ JSON_parse c = some v := by
  apply run_keeps_json rt env reqs fs1 hreqs
  by_cases hs : fs0.searchable = true
  · by_cases hw : fs0.writable = true
    · rw [initDataFile_missing rt fs0 h0 hs hw] at hinit
      injection hinit with hinit
      rw [← hinit]
      exact ⟨_, _, rfl, JSON_parse_serialize defaultData defaultData_valid⟩
    · rw [initDataFile_read_only rt fs0 h0 hs (Bool.eq_false_iff.2 hw)] at hinit
      cases hinit
  · rw [initDataFile_blocked rt fs0 (Bool.eq_false_iff.2 hs)] at hinit
    cases hinit

set_option maxRecDepth 4000 in
/-- A fresh start followed by a failed verification, a save and a read. -/
theorem data_file_stays_json_witness :
    ∃ c v, (run exampleRuntime none
      ⟨some (serializeJSONProperty [] defaultData), true, true, true⟩
      [.verify (some (.object [])), .save (some (.object [])), .getData]).file = some c ∧
      JSON_parse c = some v :=
  data_file_stays_json exampleRuntime none ⟨none, true, true, true⟩
    ⟨some (serializeJSONProperty [] defaultData), true, true, true⟩
    [.verify (some (.object [])), .save (some (.object [])), .getData] rfl
    (initDataFile_missing exampleRuntime ⟨none, true, true, true⟩ rfl rfl rfl)
    (by
      intro r hr
      simp only [List.mem_cons, List.mem_singleton, List.not_mem_nil, or_false] at hr
      rcases hr with h | h | h <;> subst h
      · exact ⟨[], by rfl⟩
      · exact ⟨[], by rfl⟩
      · trivial)

theorem verifyPin_eq (env : Option JsString) (body p : Option JsValue) (fs : FileSystem)
    (hp : destructurePin body = .ok p) :
    verifyPin env body fs =
      if strictEquals p (ADMIN_PIN env) = true then
        .ok ⟨[⟨200, .object [(utf16 "success", .bool true)]⟩], fs⟩
      else .ok ⟨[⟨401, .object [(utf16 "success", .bool false),
        (utf16 "error", .string (utf16 "Invalid PIN"))]⟩], fs⟩ := by
  unfold verifyPin
  rw [hp]
  simp only [tryCatch, bind, Except.bind, pure, Except.pure]
  split_ifs <;> rfl

theorem verifyPin_ok_iff (env : Option JsString) (body p : Option JsValue) (fs : FileSystem)
    (hp : destructurePin body = .ok p) :
    verifyPin env body fs = .ok ⟨[⟨200, .object [(utf16 "success", .bool true)]⟩], fs⟩
      ↔ p = some (.string (ADMIN_PIN env)) := by
  rw [verifyPin_eq env body p fs hp]
  constructor
  · intro h
    by_contra hne
    rw [if_neg (by rwa [strictEquals_iff])] at h
    exact statuses_ne _ _ _ _ 401 200 (by decide) h
  · intro h
    rw [if_pos ((strictEquals_iff _ _).2 h)]

theorem ADMIN_PIN_ne_nil (env : Option JsString) : ADMIN_PIN env ≠ [] := by
  unfold ADMIN_PIN
  split
  · decide
  · decide
  · simp

/-- C11, as stated, fails for the value `""` of the `ADMIN_PIN` environment
variable: the empty string is falsy in `process.env.ADMIN_PIN || '1234'`, so the
pin `""` gets 401 and the pin `"1234"` gets 200. -/
theorem empty_env_pin_falls_back :
    ADMIN_PIN (some (utf16 "")) = utf16 "1234" ∧
    verifyPin (some (utf16 "")) (some (.object [(utf16 "pin", .string (utf16 ""))]))
        ⟨none, true, true, true⟩
      = .ok ⟨[⟨401, .object [(utf16 "success", .bool false),
          (utf16 "error", .string (utf16 "Invalid PIN"))]⟩], ⟨none, true, true, true⟩⟩ ∧
    verifyPin (some (utf16 "")) (some (.object [(utf16 "pin", .string (utf16 "1234"))]))
        ⟨none, true, true, true⟩
      = .ok ⟨[⟨200, .object [(utf16 "success", .bool true)]⟩], ⟨none, true, true, true⟩⟩ := by
  refine ⟨by rfl, by rfl, by rfl⟩

/-- C11, amended: the configured secret is the value of the `ADMIN_PIN`
environment variable whenever that value is not the empty string, and is
`"1234"` when the variable is unset or empty; for a request whose body yields
the pin `p`, `POST /api/admin/verify` answers 200 `{success: true}` exactly when
`p` is that secret. -/
theorem verifyPin_env_secret (env : Option JsString) (body p : Option JsValue) (fs : FileSystem)
    (hp : destructurePin body = .ok p) :
    (∀ v : JsString, env = some v → v ≠ [] →
      ADMIN_PIN env = v ∧
      (verifyPin env body fs = .ok ⟨[⟨200, .object [(utf16 "success", .bool true)]⟩], fs⟩
        ↔ p = some (.string v))) ∧
    (env = none ∨ env = some [] →
      ADMIN_PIN env = utf16 "1234" ∧
      (verifyPin env body fs = .ok ⟨[⟨200, .object [(utf16 "success", .bool true)]⟩], fs⟩
        ↔ p = some (.string (utf16 "1234")))) := by
  constructor
  · intro v hv hne
    have hs : ADMIN_PIN env = v := by
      subst hv
      cases v with
      | nil => exact absurd rfl hne
      | cons c cs => rfl
    exact ⟨hs, by rw [verifyPin_ok_iff env body p fs hp, hs]⟩
  · intro h
    have hs : ADMIN_PIN env = utf16 "1234" := by
      rcases h with h | h <;> subst h <;> rfl
    exact ⟨hs, by rw [verifyPin_ok_iff env body p fs hp, hs]⟩

/-- The secret `"4321"` from the environment: the pin `"4321"` is accepted. -/
theorem verifyPin_env_secret_witness :
    verifyPin (some (utf16 "4321")) (some (.object [(utf16 "pin", .string (utf16 "4321"))]))
        ⟨none, true, true, true⟩
      = .ok ⟨[⟨200, .object [(utf16 "success", .bool true)]⟩], ⟨none, true, true, true⟩⟩ :=
  ((verifyPin_env_secret (some (utf16 "4321"))
    (some (.object [(utf16 "pin", .string (utf16 "4321"))])) (some (.string (utf16 "4321")))
    ⟨none, true, true, true⟩ (by rfl)).1 (utf16 "4321") rfl (by decide)).2.2 rfl

/-- C12: for every configuration of the `ADMIN_PIN` environment variable the
configured secret is a non-empty string; for a request whose body yields the
pin `p`, a 200 answer of `POST /api/admin/verify` means that `p` is a non-empty
string, and a body without `pin`, the empty string or a value that is not a
string gets 401 `{success: false, error: "Invalid PIN"}`. -/
theorem verifyPin_needs_nonempty_string (env : Option JsString) (body p : Option JsValue)
    (fs : FileSystem) (hp : destructurePin body = .ok p) :
    ADMIN_PIN env ≠ [] ∧
    (verifyPin env body fs = .ok ⟨[⟨200, .object [(utf16 "success", .bool true)]⟩], fs⟩ →
      ∃ c cs, p = some (.string (c :: cs))) ∧
    (p = none ∨ p = some (.string []) ∨ (∀ s, p ≠ some (.string s)) →
      verifyPin env body fs = .ok ⟨[⟨401, .object [(utf16 "success", .bool false),
        (utf16 "error", .string (utf16 "Invalid PIN"))]⟩], fs⟩) := by
  have hne := ADMIN_PIN_ne_nil env
  refine ⟨hne, ?_, ?_⟩
  · intro h
    rw [verifyPin_ok_iff env body p fs hp] at h
    rcases hs : ADMIN_PIN env with _ | ⟨c, cs⟩
    · exact absurd hs hne
    · exact ⟨c, cs, by rw [h, hs]⟩
  · intro h
    have hno : ¬ p = some (.string (ADMIN_PIN env)) := by
      intro heq
      rcases h with h | h | h
      · rw [h] at heq; cases heq
      · rw [h] at heq
        injection heq with heq
        injection heq with heq
        exact hne heq.symm
      · exact h _ heq
    rw [verifyPin_eq env body p fs hp, if_neg (by rwa [strictEquals_iff])]

/-- The number `1234` against the default secret `"1234"`. -/
theorem verifyPin_needs_nonempty_string_witness :
    verifyPin none (some (.object [(utf16 "pin", .number (.finite 1234))])) ⟨none, true, true, true⟩
      = .ok ⟨[⟨401, .object [(utf16 "success", .bool false),
        (utf16 "error", .string (utf16 "Invalid PIN"))]⟩], ⟨none, true, true, true⟩⟩ :=
  (verifyPin_needs_nonempty_string none
    (some (.object [(utf16 "pin", .number (.finite 1234))])) (some (.number (.finite 1234)))
    ⟨none, true, true, true⟩ (by rfl)).2.2 (Or.inr (Or.inr fun s h => by
      injection h with h
      cases h))

/-- C13: `GET /api/data` writes one response and leaves the file system, the
content of the data file included, as it was, whether the read succeeds or
fails; a second `GET /api/data`, after any number of `POST /api/admin/verify`
calls and no save, has the same outcome, status and body included. -/
theorem getData_read_only (rt : Runtime) (fs : FileSystem) :
    (∃ r, getData rt fs = .ok ⟨[r], fs⟩) ∧
    ∀ (o : Outcome) (env : Option JsString) (pins : List (Option JsValue)),
      getData rt fs = .ok o →
        o.fs = fs ∧ getData rt (run rt env o.fs (pins.map Request.verify)) = .ok o := by
  obtain ⟨r, hr, _⟩ := getData_fs rt fs
  refine ⟨⟨r, hr⟩, ?_⟩
  intro o env pins ho
  have hfs : o.fs = fs := by
    rw [hr] at ho
    injection ho with ho
    rw [← ho]
  rw [run_verify, hfs]
  exact ⟨rfl, ho⟩

set_option maxRecDepth 100000 in
/-- C14: `DEFAULT_MEALS` has exactly 20 entries, their `name` values are strings
that are pairwise distinct and not empty, and every entry has a non-empty `steps`
string and a non-empty `ingredients` array whose elements each have a string
`name` and a string `quantity`. -/
theorem DEFAULT_MEALS_well_formed :
    DEFAULT_MEALS.length = 20 ∧ mealNames.Nodup ∧ (∀ n ∈ mealNames, n ≠ none) ∧
      DEFAULT_MEALS.all wellFormedMeal = true := by
  refine ⟨by rfl, by decide, by decide, by rfl⟩

end MealPlanner
